import Mathlib

/-!
Verification of the icon-management tool in `papirus_icon_manager.py`.

The Python source is shallowly embedded: each Python function the claims
depend on becomes an executable Lean definition over explicit state
(the file system is an association list from path to content, external
capabilities are injected as functions).  Strings are Lean `String`s,
manipulated through their underlying character lists; the relevant parts
of the Python standard library (`os.path.splitext`, `os.path.join`,
`str.lower`, `str.strip`, the `in` substring test, and the line-oriented
behaviour of `configparser`) are modelled faithfully for the inputs the
program manipulates, with every simplification recorded in the doc
comment of the corresponding definition.
-/

/-! ## Character and list utilities (models of Python string primitives) -/

/-- Whitespace test used by Python `str.strip` (ASCII whitespace). -/
def isSpaceC (c : Char) : Bool :=
  c = ' ' ∨ c = '\t' ∨ c = '\n' ∨ c = '\r' ∨ c = '\x0b' ∨ c = '\x0c'

/-- Table of ASCII uppercase letters and their lowercase forms. -/
def upperLowerTable : List (Char × Char) :=
  [('A', 'a'), ('B', 'b'), ('C', 'c'), ('D', 'd'), ('E', 'e'), ('F', 'f'),
   ('G', 'g'), ('H', 'h'), ('I', 'i'), ('J', 'j'), ('K', 'k'), ('L', 'l'),
   ('M', 'm'), ('N', 'n'), ('O', 'o'), ('P', 'p'), ('Q', 'q'), ('R', 'r'),
   ('S', 's'), ('T', 't'), ('U', 'u'), ('V', 'v'), ('W', 'w'), ('X', 'x'),
   ('Y', 'y'), ('Z', 'z')]

/-- Model of Python `str.lower` on one character.  The program only
lowercases icon names, desktop-entry keys and category strings, which are
ASCII; the Unicode cases of `str.lower` are not modelled. -/
def lowerChar (c : Char) : Char :=
  match upperLowerTable.find? (fun p => p.1 = c) with
  | none => c
  | some p => p.2

/-- Model of Python `str.lower` on a character list. -/
def lowerL (l : List Char) : List Char := l.map lowerChar

/-- Model of Python `str.lower` on a string. -/
def lowerStr (s : String) : String := String.mk (lowerL s.toList)

/-- Model of Python `str.strip` on a character list. -/
def trimL (l : List Char) : List Char :=
  List.rdropWhile isSpaceC (l.dropWhile isSpaceC)

/-- `leadsWith needle hay` holds when `hay` starts with `needle`. -/
def leadsWith : List Char → List Char → Bool
  | [], _ => true
  | _ :: _, [] => false
  | c :: cs, h :: hs => c = h && leadsWith cs hs

/-- `occursIn needle hay`: `needle` occurs contiguously inside `hay`
(model of Python `needle in hay` on strings). -/
def occursIn (needle : List Char) : List Char → Bool
  | [] => needle.isEmpty
  | h :: t => leadsWith needle (h :: t) || occursIn needle t

/-- Model of the Python substring test `sub in hay`. -/
def strContains (hay sub : String) : Bool := occursIn sub.toList hay.toList

/-- Python `str.startswith` (kernel-reducible model). -/
def startsWithL (s pre : String) : Bool := leadsWith pre.toList s.toList

/-- Python `str.endswith` (kernel-reducible model). -/
def endsWithL (s post : String) : Bool :=
  leadsWith post.toList.reverse s.toList.reverse

/-- Python `str.replace` restricted to single-character patterns, which is
the only use in the source (`replace('-', '_')` and friends). -/
def replaceChar (a b : Char) (s : String) : String :=
  String.mk (s.toList.map (fun c => if c = a then b else c))

/-- Python `str.split(sep)` for a single-character separator.  Returns the
(possibly empty) chunks between occurrences of the separator. -/
def splitOnChar (c : Char) : List Char → List (List Char)
  | [] => [[]]
  | h :: t =>
    let r := splitOnChar c t
    if h = c then [] :: r
    else
      match r with
      | [] => [[h]]
      | g :: gs => (h :: g) :: gs

/-- Index of the last occurrence of `c` in the list starting at offset
`i`, if any. -/
def pyRfindAux (c : Char) : List Char → Nat → Option Nat
  | [], _ => none
  | h :: t, i =>
    match pyRfindAux c t (i + 1) with
    | some j => some j
    | none => if h = c then some i else none

/-- Python `rfind` of a character: index of its last occurrence, `-1` when
absent. -/
def pyRfind (c : Char) (s : List Char) : Int :=
  match pyRfindAux c s 0 with
  | none => -1
  | some i => i

/-- Model of `os.path.splitext(s)[0]` (POSIX flavour): split at the last
dot that comes after the last `/`, unless every character between them is
a dot (leading dots of the final component are not an extension). -/
def splitextList (s : List Char) : List Char :=
  let sepI := pyRfind '/' s
  let dotI := pyRfind '.' s
  if sepI < dotI then
    let start := (sepI + 1).toNat
    if ((s.drop start).take (dotI.toNat - start)).any (fun c => c ≠ '.') then
      s.take dotI.toNat
    else s
  else s

/-- `os.path.splitext(s)[0]` on strings. -/
def splitextBase (s : String) : String := String.mk (splitextList s.toList)

/-- Model of a two-argument `os.path.join` (POSIX). -/
def pyJoin2 (a b : String) : String :=
  if startsWithL b "/" then b
  else if a = "" || endsWithL a "/" then a ++ b
  else a ++ "/" ++ b

/-- Python `os.path.basename`: the part after the last `/`. -/
def pyBasename (p : String) : String :=
  String.mk ((p.toList.reverse.takeWhile (fun c => c ≠ '/')).reverse)

/-- Order-preserving deduplication, worker (model of
`list(dict.fromkeys(xs))`). -/
def dedupGo (seen : List String) : List String → List String
  | [] => []
  | h :: t => if seen.contains h then dedupGo seen t else h :: dedupGo (h :: seen) t

/-- Model of `list(dict.fromkeys(xs))`: keep first occurrences in order. -/
def dedupKeepFirst (l : List String) : List String := dedupGo [] l

/-! ## Static tables of `PapirusIconManager.__init__`
(`icon_extensions`, `generic_icon_mapping`, `app_type_patterns`). -/

/-- The recognized image-file extensions tested by
`icon_name.endswith(('.png', '.svg', '.xpm', '.ico'))`. -/
def hasImageExt (s : String) : Bool :=
  endsWithL s ".png" || endsWithL s ".svg" || endsWithL s ".xpm" || endsWithL s ".ico"

/-- `self.generic_icon_mapping` from the source, in declaration order. -/
def genericIconMapping : List (String × List String) :=
  [("browser", ["web-browser", "applications-internet", "internet-web-browser"]),
   ("editor", ["text-editor", "accessories-text-editor", "applications-development"]),
   ("media", ["multimedia-player", "applications-multimedia", "media-player"]),
   ("system", ["applications-system", "preferences-system", "system-software-update"]),
   ("terminal", ["utilities-terminal", "terminal", "applications-utilities"]),
   ("files", ["file-manager", "folder", "applications-accessories"]),
   ("office", ["applications-office", "office-writer", "text-x-generic"]),
   ("graphics", ["applications-graphics", "image-x-generic", "graphics-viewer"]),
   ("network", ["applications-internet", "network-workgroup", "applications-system"]),
   ("development", ["applications-development", "text-editor", "utilities-terminal"]),
   ("game", ["applications-games", "input-gaming", "applications-other"]),
   ("audio", ["applications-multimedia", "audio-x-generic", "multimedia-player"]),
   ("video", ["applications-multimedia", "video-x-generic", "multimedia-player"])]

/-- `self.app_type_patterns` from the source, in declaration order. -/
def appTypePatterns : List (String × List String) :=
  [("browser", ["browser", "firefox", "chrome", "chromium", "web", "safari", "opera"]),
   ("editor", ["editor", "vim", "nano", "code", "atom", "vscode", "sublime", "gedit"]),
   ("media", ["player", "vlc", "mpv", "music", "video", "audio", "spotify", "media"]),
   ("system", ["settings", "control", "monitor", "disk", "system", "update", "upgrade"]),
   ("terminal", ["terminal", "console", "shell", "bash", "cmd"]),
   ("files", ["files", "nautilus", "dolphin", "thunar", "manager", "explorer"]),
   ("office", ["writer", "calc", "word", "excel", "document", "office", "libreoffice"]),
   ("graphics", ["gimp", "image", "photo", "graphics", "paint", "inkscape", "krita"]),
   ("network", ["network", "wifi", "ethernet", "connection", "vpn"]),
   ("development", ["develop", "ide", "compiler", "debug", "git"]),
   ("game", ["game", "steam", "play", "gaming"]),
   ("audio", ["audio", "sound", "music", "podcast", "radio"]),
   ("video", ["video", "movie", "film", "stream", "youtube"])]

/-- The `category_mapping` local table of `_detect_app_type`. -/
def categoryMapping : List (String × String) :=
  [("webbrowser", "browser"), ("texteditor", "editor"), ("audioplayer", "audio"),
   ("videoplayer", "video"), ("graphics", "graphics"), ("office", "office"),
   ("development", "development"), ("system", "system"), ("network", "network"),
   ("game", "game"), ("consoleonly", "terminal")]

/-! ## The descriptor record (`_parse_desktop_file` result dictionary) -/

/-- The dictionary returned by `_parse_desktop_file`. -/
structure AppInfo where
  name : String
  icon : String
  exec : String
  categories : String
  comment : String
  filePath : String
  packageType : String
deriving DecidableEq, Repr

/-! ## `_is_papirus_icon` -/

/-- The `papirus_indicators` list of `_is_papirus_icon`. -/
def papirusIndicators : List String :=
  ["/Papirus/", "/Papirus-Dark/", "/Papirus-Light/", "/ePapirus/", "/ePapirus-Dark/"]

/-- `_is_papirus_icon(icon_path)`: `false` for an unresolved icon; otherwise
`true` exactly when the path contains one of the located Papirus
installation paths or one of the fixed directory-name markers. -/
def isPapirusIcon (papirusPaths : List String) (iconPath : Option String) : Bool :=
  match iconPath with
  | none => false
  | some p =>
    papirusPaths.any (fun pp => strContains p pp) ||
      papirusIndicators.any (fun ind => strContains p ind)

/-! ## `_resolve_icon_path` -/

/-- The base name computed at the top of `_resolve_icon_path`: the
recognized-extension-guarded strip (`endswith` test before `splitext`). -/
def resolveBase (iconName : String) : String :=
  if hasImageExt iconName then splitextBase iconName else iconName

/-- `_resolve_icon_path(icon_name)`.  The GTK icon theme is injected as
`gtkAvailable` plus a lookup function `gtkLookup` (modelling
`lookup_icon(base, 48, 0)` followed by `get_filename()`, with `none` for a
failed lookup or a raised exception); `fsExists` models `os.path.exists`. -/
def resolveIconPath (gtkAvailable : Bool) (fsExists : String → Bool)
    (gtkLookup : String → Option String) (iconName : String) : Option String :=
  if ¬gtkAvailable ∨ iconName = "" then none
  else
    let iconBase := resolveBase iconName
    if startsWithL iconName "/" && fsExists iconName then some iconName
    else gtkLookup iconBase

/-! ## `_find_papirus_icon` -/

/-- The `sizes` list of `_find_papirus_icon`, in source order. -/
def papirusSizes : List String :=
  ["scalable", "64x64", "48x48", "32x32", "24x24", "22x22", "16x16"]

/-- The `categories` list of `_find_papirus_icon`, in source order. -/
def papirusCategories : List String :=
  ["apps", "mimetypes", "actions", "devices", "places", "status", "categories"]

/-- The `extensions` list of `_find_papirus_icon`, in source order. -/
def papirusExtensions : List String := [".svg", ".png"]

/-- All candidate paths probed by `_find_papirus_icon` for a given base
name, in the nested loop order of the source: installation, then size,
then category, then extension. -/
def probePaths (papirusPaths : List String) (base : String) : List String :=
  papirusPaths.flatMap (fun pp =>
    papirusSizes.flatMap (fun sz =>
      papirusCategories.flatMap (fun cat =>
        papirusExtensions.map (fun ext =>
          pyJoin2 (pyJoin2 (pyJoin2 pp sz) cat) (base ++ ext)))))

/-- First element of a path list that exists on disk (the early-`return`
of the nested loops of `_find_papirus_icon`). -/
def findLoop (fsExists : String → Bool) : List String → Option String
  | [] => none
  | p :: ps => if fsExists p then some p else findLoop fsExists ps

/-- `_find_papirus_icon(icon_name)`: guard on the empty name, strip via
`os.path.splitext`, then probe the nested candidate paths in order. -/
def findPapirusIcon (papirusPaths : List String) (fsExists : String → Bool)
    (iconName : String) : Option String :=
  if iconName = "" then none
  else findLoop fsExists (probePaths papirusPaths (splitextBase iconName))

/-- Modelled from the spec (for comparison with `findPapirusIcon`): the
spec's `find_in_theme` contract probes
`<install>/<size>/<category>/<candidate_name>.<ext>`, i.e. it uses the
candidate name itself as the base of the probe paths. -/
def specProbeFirst (papirusPaths : List String) (fsExists : String → Bool)
    (candidate : String) : Option String :=
  findLoop fsExists (probePaths papirusPaths candidate)

/-! ## `_detect_app_type` and `_suggest_papirus_alternatives` -/

/-- `_detect_app_type(app_info)`: category-substring matches, then keyword
matches against the lowercased `name comment exec` concatenation,
first-match order, duplicates removed. -/
def detectAppType (app : AppInfo) : List String :=
  let categories := lowerStr app.categories
  let t1 := categoryMapping.filterMap
    (fun kv => if strContains categories kv.1 then some kv.2 else none)
  let text := lowerStr (app.name ++ " " ++ app.comment ++ " " ++ app.exec)
  let t2 := appTypePatterns.filterMap
    (fun kv => if kv.2.any (fun kw => strContains text kw) then some kv.1 else none)
  dedupKeepFirst (t1 ++ t2)

/-- The `variations` list built by `_suggest_papirus_alternatives` from the
(`splitext`-stripped) base name, including the reverse-DNS last-segment
variations when the base contains a dot. -/
def variationsOf (iconBase : String) : List String :=
  let vars := [iconBase, lowerStr iconBase, replaceChar '-' '_' iconBase,
    replaceChar '_' '-' iconBase, replaceChar ' ' '-' iconBase,
    replaceChar ' ' '_' iconBase]
  if iconBase.toList.contains '.' then
    let parts := splitOnChar '.' iconBase.toList
    if 1 < parts.length then
      let appName := String.mk (parts.getLastD [])
      vars ++ [appName, lowerStr appName, "utilities-" ++ appName,
        "applications-" ++ appName, appName ++ "-icon"]
    else vars
  else vars

/-- `_suggest_papirus_alternatives(app_info)`: exact probe first, then the
successful name variations, then (only when no variation succeeded) the
generic icons of the detected app types, deduplicated preserving order. -/
def suggestAlternatives (papirusPaths : List String) (fsExists : String → Bool)
    (app : AppInfo) : List String :=
  if (findPapirusIcon papirusPaths fsExists app.icon).isSome then [app.icon]
  else
    let vars := variationsOf (splitextBase app.icon)
    let sug1 := vars.filter (fun v => (findPapirusIcon papirusPaths fsExists v).isSome)
    let sug2 :=
      if sug1.isEmpty then
        (detectAppType app).flatMap (fun t =>
          match genericIconMapping.find? (fun kv => kv.1 == t) with
          | none => []
          | some kv => kv.2.filter
              (fun g => (findPapirusIcon papirusPaths fsExists g).isSome))
      else sug1
    dedupKeepFirst sug2

/-- A concrete descriptor record used to instantiate theorems. -/
def sampleApp : AppInfo :=
  { name := "App", icon := "org.example.CoolApp", exec := "", categories := "",
    comment := "", filePath := "/usr/share/applications/a.desktop",
    packageType := "APT" }


/-! ## `_parse_desktop_file` over parsed configuration data

`configparser` state is modelled as an ordered association list of
sections, each an ordered association list of (already `optionxform`-ed,
i.e. lowercased) option names to values, over character lists.  A file
that `configparser` fails to read never reaches this stage (the source
catches the exception and yields no descriptor). -/

/-- One parsed configuration section: options in file order, keys stored
lowercased (the effect of `optionxform`). -/
abbrev CfgSection := List (List Char × List Char)

/-- A parsed configuration file: sections in file order. -/
abbrev Cfg := List (List Char × CfgSection)

/-- Section lookup (`'Desktop Entry' in config` / `config[name]`);
section names are case sensitive in `configparser`. -/
def lookupSection (cfg : Cfg) (name : List Char) : Option CfgSection :=
  (cfg.find? (fun s => s.1 == name)).map (fun s => s.2)

/-- `SectionProxy.get(key, fallback)` without the fallback: the key is
passed through `optionxform` (lowercasing) before the lookup. -/
def getOption (sec : CfgSection) (key : List Char) : Option (List Char) :=
  (sec.find? (fun kv => kv.1 == lowerL key)).map (fun kv => kv.2)

/-- `SectionProxy.get(key, fallback)`. -/
def getOptionD (sec : CfgSection) (key fallback : List Char) : List Char :=
  (getOption sec key).getD fallback

/-- `_get_package_type(filepath)`; `home` stands for
`os.path.expanduser('~')`. -/
def getPackageType (home filepath : String) : String :=
  if strContains filepath "/snap" then "SNAP"
  else if strContains filepath "/flatpak" then "FLATPAK"
  else if startsWithL filepath home then "USER"
  else "APT"

/-- `_parse_desktop_file(filepath)` applied to a successfully read
configuration: `None` without a `Desktop Entry` section, with
`Type != application` (case-insensitively) or with `NoDisplay == true`
(case-insensitively); otherwise exactly one descriptor record. -/
def parseDesktopFile (home : String) (cfg : Cfg) (filepath : String) : Option AppInfo :=
  match lookupSection cfg ("Desktop Entry".toList) with
  | none => none
  | some entry =>
    if lowerL (getOptionD entry "Type".toList []) ≠ "application".toList then none
    else if lowerL (getOptionD entry "NoDisplay".toList []) = "true".toList then none
    else some {
      name := String.mk (getOptionD entry "Name".toList (pyBasename filepath).toList),
      icon := String.mk (getOptionD entry "Icon".toList []),
      exec := String.mk (getOptionD entry "Exec".toList []),
      categories := String.mk (getOptionD entry "Categories".toList []),
      comment := String.mk (getOptionD entry "Comment".toList []),
      filePath := filepath,
      packageType := getPackageType home filepath }

/-! ## `_print_summary` -/

/-- Entry of `papirus_apps` in `scan_all_applications`. -/
structure PapirusApp where
  appInfo : AppInfo
  resolvedPath : Option String
deriving DecidableEq, Repr

/-- Entry of `non_papirus_apps` in `scan_all_applications`. -/
structure NonPapirusApp where
  appInfo : AppInfo
  resolvedPath : Option String
  alternatives : List String
deriving DecidableEq, Repr

/-- One line printed by `_print_summary`, as structured data.  The
`coverage` line carries the two counts whose quotient the source renders
as `(papirusCount / totalCount * 100)` with one decimal place; the
floating-point rendering itself is abstracted. -/
inductive SummaryLine where
  | separator
  | summaryHeader
  | totalChecked (n : Nat)
  | usingPapirus (n : Nat)
  | notUsingPapirus (n : Nat)
  | coverage (papirusCount totalCount : Nat)
  | improveHeader
  | groupHeader (pkgType : String) (count : Nat)
  | appName (name : String)
  | couldUse (alt : String)
  | noSuitable
  | andMore (n : Nat)
deriving DecidableEq, Repr

/-- Recognizer for the coverage line. -/
def isCoverageLine : SummaryLine → Bool
  | .coverage _ _ => true
  | _ => false

/-- The `by_package_type` grouping of `_print_summary`: a Python dict
built by insertion, i.e. groups in first-appearance order, each keeping
its entries in list order. -/
def groupByPkgType (apps : List NonPapirusApp) : List (String × List NonPapirusApp) :=
  apps.foldl (fun acc a =>
    let pt := a.appInfo.packageType
    if acc.any (fun g => g.1 == pt) then
      acc.map (fun g => if g.1 == pt then (g.1, g.2 ++ [a]) else g)
    else acc ++ [(pt, [a])]) []

/-- The per-group lines of the non-matching breakdown (`_print_summary`
inner loop): at most 5 entries shown, then an overflow count. -/
def groupLines (g : String × List NonPapirusApp) : List SummaryLine :=
  SummaryLine.groupHeader g.1 g.2.length ::
    (g.2.take 5).flatMap (fun a =>
      SummaryLine.appName a.appInfo.name ::
        (if a.alternatives.isEmpty then [SummaryLine.noSuitable]
         else [SummaryLine.couldUse (a.alternatives.headD "")]))
    ++ (if 5 < g.2.length then [SummaryLine.andMore (g.2.length - 5)] else [])

/-- The breakdown block of `_print_summary`, printed only when there are
non-matching applications and debug mode is off. -/
def summaryBreakdown (debugMode : Bool) (nonPapirusApps : List NonPapirusApp) :
    List SummaryLine :=
  if ¬nonPapirusApps.isEmpty ∧ ¬debugMode then
    SummaryLine.improveHeader :: (groupByPkgType nonPapirusApps).flatMap groupLines
  else []

/-- `_print_summary(total_apps, papirus_apps, non_papirus_apps)`: the
sequence of printed lines.  The coverage line is emitted only under
`if total_apps > 0`. -/
def printSummary (debugMode : Bool) (totalApps : Nat) (papirusApps : List PapirusApp)
    (nonPapirusApps : List NonPapirusApp) : List SummaryLine :=
  [SummaryLine.separator, SummaryLine.summaryHeader,
   SummaryLine.totalChecked totalApps,
   SummaryLine.usingPapirus papirusApps.length,
   SummaryLine.notUsingPapirus nonPapirusApps.length]
  ++ (if 0 < totalApps then [SummaryLine.coverage papirusApps.length totalApps] else [])
  ++ summaryBreakdown debugMode nonPapirusApps


/-! ## `configparser` reading and writing, as used by
`_update_desktop_file_icon`

The reader is modelled line by line.  Simplifications relative to the
Python library, all conservative in the sense that the model maps the
construct to a parse failure (and `_update_desktop_file_icon` treats a
raised exception as failure, leaving the file untouched): continuation
lines (lines starting with whitespace), the `[DEFAULT]` section and its
value-defaulting, and options with an empty name are not modelled.  The
`%`-interpolation of values (`BasicInterpolation`) is modelled only by
failing whenever a manipulated value contains `%`.  Within this fragment
the reader follows `configparser._read`: full-line comments (`#`/`;`) and
blank lines are skipped, section headers are case-sensitive and
duplicate sections or duplicate options raise, option names are split at
the first `=` or `:`, trimmed and lowercased (`optionxform`), values are
trimmed, and the writer emits `[section]` headers, `key = value` lines
and a blank line after each section. -/

/-- Characters accepted as key/value delimiters by `configparser`. -/
def isDelim (c : Char) : Bool := c = '=' ∨ c = ':'

/-- Classification of one raw configuration line. -/
inductive PLine where
  | blank
  | comment
  | header (name : List Char)
  | kv (k v : List Char)
  | bad
deriving DecidableEq, Repr

/-- Classify one line the way `configparser._read` consumes it. -/
def classifyLine (line : List Char) : PLine :=
  let v := trimL line
  if v.isEmpty then PLine.blank
  else if v.head? = some '#' ∨ v.head? = some ';' then PLine.comment
  else if (line.head?.map isSpaceC).getD false then PLine.bad
  else if v.head? = some '[' then
    let rest := v.drop 1
    let name := rest.takeWhile (fun c => c ≠ ']')
    if rest.any (fun c => c = ']') ∧ name ≠ [] ∧ name ≠ "DEFAULT".toList then
      PLine.header name
    else PLine.bad
  else
    let k := v.takeWhile (fun c => ¬isDelim c)
    if k.length = v.length then PLine.bad
    else
      let key := lowerL (trimL k)
      if key = [] then PLine.bad
      else PLine.kv key (trimL ((v.drop k.length).drop 1))

/-- Close the section currently being read. -/
def flushSection (acc : Cfg) (cur : Option (List Char × CfgSection)) : Cfg :=
  match cur with
  | none => acc
  | some s => acc ++ [s]

/-- The reading loop of `configparser._read`: `acc` holds the finished
sections, `cur` the section being filled.  `none` models a raised
parsing error (strict mode: duplicate sections and duplicate options
raise; an option before any section header raises). -/
def parseCfgGo (acc : Cfg) (cur : Option (List Char × CfgSection)) :
    List (List Char) → Option Cfg
  | [] => some (flushSection acc cur)
  | l :: ls =>
    match classifyLine l with
    | PLine.blank => parseCfgGo acc cur ls
    | PLine.comment => parseCfgGo acc cur ls
    | PLine.bad => none
    | PLine.header name =>
      let acc2 := flushSection acc cur
      if acc2.any (fun s => s.1 == name) then none
      else parseCfgGo acc2 (some (name, [])) ls
    | PLine.kv k v =>
      match cur with
      | none => none
      | some s =>
        if s.2.any (fun kv => kv.1 == k) then none
        else parseCfgGo acc (some (s.1, s.2 ++ [(k, v)])) ls

/-- `configparser.read` on a list of lines. -/
def parseCfg (lines : List (List Char)) : Option Cfg :=
  parseCfgGo [] none lines

/-- The line `configparser.write` emits for one option
(`space_around_delimiters=True`, first delimiter `=`). -/
def optLine (kv : List Char × List Char) : List Char :=
  kv.1 ++ (' ' :: '=' :: ' ' :: kv.2)

/-- The lines `configparser.write` emits for one section: header, one
line per option, then a blank line. -/
def writeSection (s : List Char × CfgSection) : List (List Char) :=
  ('[' :: (s.1 ++ [']'])) :: (s.2.map optLine ++ [[]])

/-- `configparser.write` on a whole parser state. -/
def writeCfg (cfg : Cfg) : List (List Char) := cfg.flatMap writeSection

/-- `config['Desktop Entry']['Icon'] = new`: `optionxform` turns the key
into `icon`; an existing option is updated in place, a missing one is
appended at the end of the section. -/
def setOptionInSection (sec : CfgSection) (key value : List Char) : CfgSection :=
  if sec.any (fun kv => kv.1 == key) then
    sec.map (fun kv => if kv.1 == key then (kv.1, value) else kv)
  else sec ++ [(key, value)]

/-- Set the icon option of the `Desktop Entry` section. -/
def setIcon (cfg : Cfg) (value : List Char) : Cfg :=
  cfg.map (fun s =>
    if s.1 == "Desktop Entry".toList then
      (s.1, setOptionInSection s.2 ("icon".toList) value)
    else s)

/-- Whether a value contains `%` (which would engage
`BasicInterpolation`; modelled conservatively as failure). -/
def hasPercent (l : List Char) : Bool := l.any (fun c => c = '%')

/-- The read-modify-write body of `_update_desktop_file_icon` on file
content given as lines: parse, require a `Desktop Entry` section (the
source returns `False` without one), update the icon key, regenerate the
file.  `none` models every failure path (parse error, missing section,
interpolation error), in which case the source leaves the file
unchanged and reports failure. -/
def updateDesktopFileLines (lines : List (List Char)) (newIcon : List Char) :
    Option (List (List Char)) :=
  match parseCfg lines with
  | none => none
  | some cfg =>
    match lookupSection cfg ("Desktop Entry".toList) with
    | none => none
    | some entry =>
      if hasPercent (getOptionD entry "Icon".toList []) ∨ hasPercent newIcon then none
      else some (writeCfg (setIcon cfg newIcon))

/-! ### Well-formedness of parsed configuration data

These predicates hold of everything `parseCfg` produces and are exactly
what makes `writeCfg` parse back to the same data. -/

/-- Well-formed stored option name: nonempty, trimmed, lowercased, free
of delimiters, and not starting like a comment or header. -/
def wfKey (k : List Char) : Prop :=
  k ≠ [] ∧ trimL k = k ∧ lowerL k = k ∧ k.all (fun c => ¬isDelim c) = true ∧
  k.head? ≠ some '#' ∧ k.head? ≠ some ';' ∧ k.head? ≠ some '['

/-- Well-formed stored value: trimmed. -/
def wfVal (v : List Char) : Prop := trimL v = v

/-- Well-formed section name: nonempty, no closing bracket, not the
special default section. -/
def wfSecName (n : List Char) : Prop :=
  n ≠ [] ∧ n.all (fun c => c ≠ ']') = true ∧ n ≠ "DEFAULT".toList

/-- Well-formed section: name, option-name uniqueness, options. -/
def wfSection (s : List Char × CfgSection) : Prop :=
  wfSecName s.1 ∧ (s.2.map Prod.fst).Nodup ∧ ∀ kv ∈ s.2, wfKey kv.1 ∧ wfVal kv.2

/-- Well-formed parser state: section-name uniqueness and sections. -/
def wfCfg (cfg : Cfg) : Prop :=
  (cfg.map Prod.fst).Nodup ∧ ∀ s ∈ cfg, wfSection s


/-- Concrete minimal desktop file (as lines) used to analyse the rewrite. -/
def c2File : List (List Char) :=
  ["[Desktop Entry]".toList, "Type=Application".toList, "Name=Foo".toList,
   "Icon=old".toList]

/-- What `configparser` produces for `c2File`. -/
def c2Cfg : Cfg :=
  [("Desktop Entry".toList,
    [("type".toList, "Application".toList), ("name".toList, "Foo".toList),
     ("icon".toList, "old".toList)])]

/-- The `Desktop Entry` section of `c2Cfg`. -/
def c2Entry : CfgSection :=
  [("type".toList, "Application".toList), ("name".toList, "Foo".toList),
   ("icon".toList, "old".toList)]


/-! ## File-system state, `_update_desktop_file_icon` and `apply_fixes`

The file system is an association list from path to content (content =
list of lines).  Directory creation (`os.makedirs`) is not modelled
separately: a path can always be written.  `os.access(path, W_OK)` is
injected as `writable`; I/O failures of `shutil.copy2` and of opening a
file for writing are injected as `failW` on the destination path, and a
failed operation is modelled as atomic (no partial write).  Every raised
exception is caught by the source's `except` clause, which reports
failure for that entry; the model returns the state reached so far plus
`false`, matching the persistence of earlier side effects. -/

/-- File-system state. -/
abbrev FSV := List (String × List (List Char))

/-- Content of a path, `none` when the file does not exist. -/
def lookupFS (st : FSV) (p : String) : Option (List (List Char)) :=
  (st.find? (fun e => e.1 == p)).map (fun e => e.2)

/-- Write content to a path (create or overwrite). -/
def setFS (st : FSV) (p : String) (c : List (List Char)) : FSV :=
  if (st.any fun e => e.1 == p) then
    st.map (fun e => if e.1 == p then (p, c) else e)
  else st ++ [(p, c)]

/-- `shutil.copy2(src, dst)`: fails when the source is missing
(`FileNotFoundError`) or when writing `dst` fails. -/
def copy2 (failW : String → Bool) (st : FSV) (src dst : String) : Option FSV :=
  (lookupFS st src).elim none
    (fun c => if failW dst then none else some (setFS st dst c))

/-- `os.path.expanduser('~/.local/share/applications/')`. -/
def userAppsDir (home : String) : String := home ++ "/.local/share/applications/"

/-- The user-override path `os.path.join(user_apps_dir, basename(path))`. -/
def overridePathOf (home path : String) : String :=
  pyJoin2 (userAppsDir home) (pyBasename path)

/-- The file `_update_desktop_file_icon` actually edits: the original
when writable, the user override otherwise. -/
def targetPathOf (home : String) (writable : String → Bool) (path : String) : String :=
  if writable path then path else overridePathOf home path

/-- The backup path `<target>.backup`. -/
def backupPathOf (home : String) (writable : String → Bool) (path : String) : String :=
  targetPathOf home writable path ++ ".backup"

/-- The read-modify-write stage of `_update_desktop_file_icon`: read the
target (`configparser.read` of a missing file reads as empty), set the
icon and write back; every failure yields `false` with the state reached
so far. -/
def updWriteStage (failW : String → Bool) (st1 : FSV) (target : String)
    (newIcon : List Char) : FSV × Bool :=
  (updateDesktopFileLines ((lookupFS st1 target).getD []) newIcon).elim
    (st1, false)
    (fun out => if failW target then (st1, false) else (setFS st1 target out, true))

/-- The backup step: copy the target to `<target>.backup` only when no
backup exists yet, then continue with the write stage; a failed backup
copy yields `false` with the state unchanged. -/
def updBackupAndWrite (failW : String → Bool) (st : FSV) (target : String)
    (newIcon : List Char) : FSV × Bool :=
  ((if (lookupFS st (target ++ ".backup")).isSome then some st
    else copy2 failW st target (target ++ ".backup")).elim
    (st, false)
    (fun st1 => updWriteStage failW st1 target newIcon))

/-- `_update_desktop_file_icon(desktop_file_path, new_icon_name)`. -/
def updateDesktopFileIcon (home : String) (writable failW : String → Bool)
    (st : FSV) (path : String) (newIcon : List Char) : FSV × Bool :=
  if writable path then updBackupAndWrite failW st path newIcon
  else
    (copy2 failW st path (overridePathOf home path)).elim
      (st, false)
      (fun st1 => updBackupAndWrite failW st1 (overridePathOf home path) newIcon)

/-- `apply_fixes(apps_to_fix, auto_apply=True)`: per entry (original file
path, suggested alternatives), entries without alternatives are skipped,
otherwise the first alternative is applied and the success/failure
counters updated; the batch always runs to the end. -/
def applyFixes (home : String) (writable failW : String → Bool) (st : FSV)
    (entries : List (String × List String)) : FSV × Nat × Nat :=
  entries.foldl (fun acc e =>
    match e.2 with
    | [] => acc
    | alt :: _ =>
      let r := updateDesktopFileIcon home writable failW acc.1 e.1 (alt.toList)
      if r.2 then (r.1, acc.2.1 + 1, acc.2.2)
      else (r.1, acc.2.1, acc.2.2 + 1)) (st, 0, 0)


/-! ## The scan pass and its file-system footprint

`scan_all_applications` is modelled twice over the same injected
environment (`dirExists`/`globFn` for directory probing and `*.desktop`
globbing, `readParse` for `configparser.read` inside
`_parse_desktop_file`, `gtk`/`gtkLookup` for the icon theme, `fsExists`
for `os.path.exists`): once for its value — the classified descriptor
sets and the summary lines — and once for the trace of file-system
operations it performs, one trace entry per `os`/`glob`/`configparser`
call site of the source.  Logging via `print` goes to stdout and is not a
file-system effect. -/

/-- One file-system operation performed by the program. -/
inductive FsEff where
  | pathExists (p : String)
  | globDir (d : String)
  | readFile (p : String)
  | themeLookup (name : String)
  | writeFile (p : String)
  | copyFile (src dst : String)
  | makeDirs (d : String)
deriving DecidableEq, Repr

/-- Whether an operation is read-only (creates, modifies and deletes no
file). -/
def FsEff.isReadOnly : FsEff → Bool
  | .writeFile _ => false
  | .copyFile _ _ => false
  | .makeDirs _ => false
  | _ => true

/-- Existence probes performed by the nested loops of
`_find_papirus_icon`: one per candidate until the first hit. -/
def probeEffs (fsE : String → Bool) : List String → List FsEff
  | [] => []
  | p :: ps =>
    if fsE p then [FsEff.pathExists p]
    else FsEff.pathExists p :: probeEffs fsE ps

/-- File-system operations of `_find_papirus_icon icon_name`. -/
def findPapirusIconEffs (papirusPaths : List String) (fsE : String → Bool)
    (iconName : String) : List FsEff :=
  if iconName = "" then []
  else probeEffs fsE (probePaths papirusPaths (splitextBase iconName))

/-- File-system operations of `_resolve_icon_path` (the `os.path.exists`
probe runs only for absolute names thanks to `and` short-circuiting; the
GTK lookup is recorded as `themeLookup`). -/
def resolveIconPathEffs (gtkAvailable : Bool) (fsE : String → Bool)
    (iconName : String) : List FsEff :=
  if ¬gtkAvailable ∨ iconName = "" then []
  else if startsWithL iconName "/" then
    (if fsE iconName then [FsEff.pathExists iconName]
     else [FsEff.pathExists iconName, FsEff.themeLookup (resolveBase iconName)])
  else [FsEff.themeLookup (resolveBase iconName)]

/-- File-system operations of `_suggest_papirus_alternatives`: the exact
probe, then one probe per variation, then (only when no variation
succeeded) one probe per generic icon of each detected type. -/
def suggestEffs (papirusPaths : List String) (fsE : String → Bool)
    (app : AppInfo) : List FsEff :=
  let e0 := findPapirusIconEffs papirusPaths fsE app.icon
  if (findPapirusIcon papirusPaths fsE app.icon).isSome then e0
  else
    let vars := variationsOf (splitextBase app.icon)
    let e1 := e0 ++ vars.flatMap (fun v => findPapirusIconEffs papirusPaths fsE v)
    if (vars.filter (fun v => (findPapirusIcon papirusPaths fsE v).isSome)).isEmpty then
      e1 ++ (detectAppType app).flatMap (fun t =>
        (genericIconMapping.find? (fun kv => kv.1 == t)).elim []
          (fun kv => kv.2.flatMap (fun g => findPapirusIconEffs papirusPaths fsE g)))
    else e1

/-- File-system operations of the per-file body of
`scan_all_applications`: the `configparser` read, then — if the file
yields a descriptor — icon resolution, classification (pure) and, for
non-matching descriptors, the suggestion search. -/
def scanFileEffs (home : String) (papirusPaths : List String) (gtkAvailable : Bool)
    (fsE : String → Bool) (gtkLookup : String → Option String)
    (readParse : String → Option Cfg) (f : String) : List FsEff :=
  FsEff.readFile f ::
    ((readParse f).bind (fun cfg => parseDesktopFile home cfg f)).elim []
      (fun app =>
        resolveIconPathEffs gtkAvailable fsE app.icon ++
          (if isPapirusIcon papirusPaths
              (resolveIconPath gtkAvailable fsE gtkLookup app.icon) then []
           else suggestEffs papirusPaths fsE app))

/-- File-system operations for one descriptor directory: existence
check, then the glob and the per-file work when it exists. -/
def scanDirEffs (home : String) (papirusPaths : List String) (gtkAvailable : Bool)
    (fsE : String → Bool) (gtkLookup : String → Option String)
    (readParse : String → Option Cfg) (dirExists : String → Bool)
    (globFn : String → List String) (d : String) : List FsEff :=
  FsEff.pathExists d ::
    (if dirExists d then
      FsEff.globDir d ::
        (globFn d).flatMap
          (scanFileEffs home papirusPaths gtkAvailable fsE gtkLookup readParse)
    else [])

/-- All file-system operations of `scan_all_applications` (after the
early return when no theme installation was found). -/
def scanAllApplicationsEffs (home : String) (papirusPaths : List String)
    (desktopPathsCfg : List (String × List String)) (dirExists : String → Bool)
    (globFn : String → List String) (readParse : String → Option Cfg)
    (gtkAvailable : Bool) (fsE : String → Bool)
    (gtkLookup : String → Option String) : List FsEff :=
  if papirusPaths.isEmpty then []
  else desktopPathsCfg.flatMap (fun pt =>
    pt.2.flatMap
      (scanDirEffs home papirusPaths gtkAvailable fsE gtkLookup readParse
        dirExists globFn))

/-- The value computed by `scan_all_applications`: every descriptor
parsed from the existing directories, the matching/non-matching
partition, and the printed summary. -/
def scanAllApplications (home : String) (papirusPaths : List String)
    (desktopPathsCfg : List (String × List String)) (dirExists : String → Bool)
    (globFn : String → List String) (readParse : String → Option Cfg)
    (gtkAvailable : Bool) (fsE : String → Bool)
    (gtkLookup : String → Option String) (debugMode : Bool) :
    Nat × List PapirusApp × List NonPapirusApp × List SummaryLine :=
  if papirusPaths.isEmpty then (0, [], [], [])
  else
    let files := desktopPathsCfg.flatMap (fun pt =>
      pt.2.flatMap (fun d => if dirExists d then globFn d else []))
    let apps := files.filterMap (fun f =>
      (readParse f).bind (fun cfg => parseDesktopFile home cfg f))
    let papApps := apps.filterMap (fun a =>
      let p := resolveIconPath gtkAvailable fsE gtkLookup a.icon
      if isPapirusIcon papirusPaths p then some ⟨a, p⟩ else none)
    let nonPap := apps.filterMap (fun a =>
      let p := resolveIconPath gtkAvailable fsE gtkLookup a.icon
      if isPapirusIcon papirusPaths p then none
      else some ⟨a, p, suggestAlternatives papirusPaths fsE a⟩)
    (apps.length, papApps, nonPap,
      printSummary debugMode apps.length papApps nonPap)

-- ===== theorems below this line =====

/-! ## Lemmas about the string primitives -/

theorem leadsWith_iff (needle hay : List Char) :
    leadsWith needle hay = true ↔ needle <+: hay := by
  induction needle generalizing hay with
  | nil => simp [leadsWith]
  | cons c cs ih =>
    cases hay with
    | nil => simp [leadsWith]
    | cons h hs =>
      simp only [leadsWith, Bool.and_eq_true, decide_eq_true_eq, ih,
        List.cons_prefix_cons]

theorem occursIn_iff (needle hay : List Char) :
    occursIn needle hay = true ↔ needle <:+: hay := by
  induction hay with
  | nil => simp [occursIn, List.isEmpty_iff]
  | cons h t ih =>
    simp only [occursIn, Bool.or_eq_true, leadsWith_iff, ih,
      List.infix_cons_iff]

theorem strContains_iff (hay sub : String) :
    strContains hay sub = true ↔ sub.toList <:+: hay.toList :=
  occursIn_iff _ _

/-! ## C5 -/

/-- C5: for every resolved icon path `p`, `_is_papirus_icon` returns `true`
iff `p` contains (as a substring) one of the located theme-installation
paths or one of the five fixed Papirus directory-name markers; an
unresolved icon (`none`) is always classified non-matching. -/
theorem c5_is_target_theme_characterization (papirusPaths : List String) (p : String) :
    (isPapirusIcon papirusPaths (some p) = true ↔
      (∃ pp ∈ papirusPaths, pp.toList <:+: p.toList) ∨
      (∃ ind ∈ papirusIndicators, ind.toList <:+: p.toList)) ∧
    isPapirusIcon papirusPaths none = false := by
  constructor
  · simp [isPapirusIcon, List.any_eq_true, strContains_iff]
  · rfl

/-! ## Lemmas about the probe loop -/

theorem findLoop_eq_none_iff (f : String → Bool) (l : List String) :
    findLoop f l = none ↔ ∀ p ∈ l, f p = false := by
  induction l with
  | nil => simp [findLoop]
  | cons p ps ih =>
    by_cases hp : f p = true
    · simp [findLoop, hp]
    · simp only [Bool.not_eq_true] at hp
      simp [findLoop, hp, ih]

theorem findLoop_eq_some (f : String → Bool) (l : List String) (p : String)
    (h : findLoop f l = some p) :
    f p = true ∧ ∃ l1 l2, l = l1 ++ p :: l2 ∧ ∀ q ∈ l1, f q = false := by
  induction l with
  | nil => simp [findLoop] at h
  | cons a as ih =>
    by_cases ha : f a = true
    · simp only [findLoop, ha, if_true, Option.some.injEq] at h
      subst h
      exact ⟨ha, [], as, rfl, by simp⟩
    · simp only [Bool.not_eq_true] at ha
      simp only [findLoop, ha, Bool.false_eq_true, if_false] at h
      obtain ⟨hf, l1, l2, rfl, hl1⟩ := ih h
      refine ⟨hf, a :: l1, l2, rfl, ?_⟩
      intro q hq
      rcases List.mem_cons.mp hq with rfl | hq
      · exact ha
      · exact hl1 q hq

theorem dedupGo_subset (l : List String) :
    ∀ seen x, x ∈ dedupGo seen l → x ∈ l := by
  induction l with
  | nil => intro seen x h; simp [dedupGo] at h
  | cons a as ih =>
    intro seen x h
    simp only [dedupGo] at h
    by_cases hc : seen.contains a
    · simp only [hc, if_true] at h
      exact List.mem_cons_of_mem _ (ih seen x h)
    · simp only [hc, if_false] at h
      rcases List.mem_cons.mp h with rfl | h
      · exact List.mem_cons_self _ _
      · exact List.mem_cons_of_mem _ (ih (a :: seen) x h)

/-! ## C1 -/

/-- C1 counterexample: on `org.example.CoolApp` (no recognized trailing
extension) the base used by `_find_papirus_icon` and
`_suggest_papirus_alternatives` is `org.example`, not the full input —
`os.path.splitext` is applied unconditionally there.  Even with
`org.example.CoolApp.svg` present under a Papirus installation, the probe
misses it and the suggester returns nothing, refuting the claim that the
probe base equals the full input. -/
theorem c1_counterexample :
    splitextBase "org.example.CoolApp" = "org.example" ∧
    resolveBase "org.example.CoolApp" = "org.example.CoolApp" ∧
    findPapirusIcon ["/usr/share/icons/Papirus"]
      (fun p => p == "/usr/share/icons/Papirus/scalable/apps/org.example.CoolApp.svg")
      "org.example.CoolApp" = none ∧
    suggestAlternatives ["/usr/share/icons/Papirus"]
      (fun p => p == "/usr/share/icons/Papirus/scalable/apps/org.example.CoolApp.svg")
      sampleApp = [] := by decide

theorem pyRfind_neg_one_le (c : Char) (s : List Char) : -1 ≤ pyRfind c s := by
  unfold pyRfind
  cases h : pyRfindAux c s 0 with
  | none => simp
  | some i => simp; omega

theorem pyRfindAux_eq_none_of_not_mem (c : Char) (s : List Char)
    (h : c ∉ s) : ∀ i, pyRfindAux c s i = none := by
  induction s with
  | nil => intro i; rfl
  | cons a t ih =>
    intro i
    have hac : a ≠ c := fun hc => h (hc ▸ List.mem_cons_self _ _)
    have hct : c ∉ t := fun hc => h (List.mem_cons_of_mem _ hc)
    simp only [pyRfindAux, ih hct]
    simp [hac]

theorem pyRfind_eq_neg_one_of_not_mem (c : Char) (s : List Char)
    (h : c ∉ s) : pyRfind c s = -1 := by
  unfold pyRfind
  rw [pyRfindAux_eq_none_of_not_mem c s h 0]

theorem splitextBase_of_no_dot (s : String) (h : s.toList.contains '.' = false) :
    splitextBase s = s := by
  have hnm : '.' ∉ s.toList := by
    simpa using h
  have hdot : pyRfind '.' s.toList = -1 := pyRfind_eq_neg_one_of_not_mem _ _ hnm
  have hsep : -1 ≤ pyRfind '/' s.toList := pyRfind_neg_one_le _ _
  unfold splitextBase splitextList
  rw [hdot]
  rw [if_neg (by omega)]
  rfl

/-- C1 amended: only `_resolve_icon_path` guards the extension strip with
an `endswith` test over `.png/.svg/.xpm/.ico`; `_find_papirus_icon` and
`_suggest_papirus_alternatives` apply `os.path.splitext` to the icon name
unconditionally, so a dotted reverse-DNS name without a recognized
extension keeps its full form only in the resolver, while the probe and
the variation generator use the name with its last dot-segment stripped.
Names without any dot pass through unchanged everywhere, and a name with
a recognized trailing extension loses exactly that extension in all three
operations. -/
theorem c1_amended_base_stripping (s : String) (papirusPaths : List String)
    (fsExists : String → Bool) (app : AppInfo) :
    (s.toList.contains '.' = false → splitextBase s = s ∧ resolveBase s = s) ∧
    (hasImageExt s = false → resolveBase s = s) ∧
    (hasImageExt s = true → resolveBase s = splitextBase s) ∧
    (s ≠ "" → findPapirusIcon papirusPaths fsExists s =
      findLoop fsExists (probePaths papirusPaths (splitextBase s))) ∧
    splitextBase "org.example.CoolApp.svg" = "org.example.CoolApp" ∧
    (∀ x ∈ suggestAlternatives papirusPaths fsExists app,
      x = app.icon ∨ x ∈ variationsOf (splitextBase app.icon) ∨
      ∃ kv ∈ genericIconMapping, x ∈ kv.2) := by
  refine ⟨?_, ?_, ?_, ?_, by decide, ?_⟩
  · intro h
    refine ⟨splitextBase_of_no_dot s h, ?_⟩
    unfold resolveBase
    split
    · exact splitextBase_of_no_dot s h
    · rfl
  · intro h; simp [resolveBase, h]
  · intro h; simp [resolveBase, h]
  · intro h; simp [findPapirusIcon, h]
  · intro x hx
    unfold suggestAlternatives at hx
    by_cases hex : (findPapirusIcon papirusPaths fsExists app.icon).isSome
    · simp only [hex, if_true, List.mem_singleton] at hx
      exact Or.inl hx
    · simp only [hex, if_false] at hx
      have hx2 := dedupGo_subset _ [] x hx
      by_cases hemp : ((variationsOf (splitextBase app.icon)).filter
          (fun v => (findPapirusIcon papirusPaths fsExists v).isSome)).isEmpty
      · simp only [hemp, if_true] at hx2
        obtain ⟨t, _, hxt⟩ := List.mem_flatMap.mp hx2
        cases hfind : genericIconMapping.find? (fun kv => kv.1 == t) with
        | none => rw [hfind] at hxt; simp at hxt
        | some kv =>
          rw [hfind] at hxt
          refine Or.inr (Or.inr ⟨kv, List.mem_of_find?_eq_some hfind, ?_⟩)
          exact List.mem_of_mem_filter hxt
      · simp only [hemp, if_false] at hx2
        exact Or.inr (Or.inl (List.mem_of_mem_filter hx2))

/-- Witness instantiating the hypotheses of `c1_amended_base_stripping`
at concrete inputs. -/
theorem c1_amended_base_stripping_witness :
    (splitextBase "org" = "org" ∧ resolveBase "org" = "org") ∧
    (resolveBase "nopic" = "nopic") ∧
    (resolveBase "a.svg" = splitextBase "a.svg") ∧
    (findPapirusIcon ["/t"] (fun _ => true) "a.b" =
      findLoop (fun _ => true) (probePaths ["/t"] (splitextBase "a.b"))) ∧
    ("org.example.CoolApp" = sampleApp.icon ∨
      "org.example.CoolApp" ∈ variationsOf (splitextBase sampleApp.icon) ∨
      ∃ kv ∈ genericIconMapping, "org.example.CoolApp" ∈ kv.2) :=
  ⟨(c1_amended_base_stripping "org" [] (fun _ => false) sampleApp).1 (by decide),
   (c1_amended_base_stripping "nopic" [] (fun _ => false) sampleApp).2.1 (by decide),
   (c1_amended_base_stripping "a.svg" [] (fun _ => false) sampleApp).2.2.1 (by decide),
   (c1_amended_base_stripping "a.b" ["/t"] (fun _ => true) sampleApp).2.2.2.1 (by decide),
   (c1_amended_base_stripping "x" ["/t"] (fun _ => true) sampleApp).2.2.2.2.2
     "org.example.CoolApp" (by decide)⟩

/-! ## C6 -/

/-- C6 counterexample: the spec's probe formula uses the candidate name
itself, but `_find_papirus_icon` probes the `splitext`-stripped base.  For
candidate `a.b` with exactly `<install>/scalable/apps/a.b.svg` present,
a probe path in the claimed sense exists (as `specProbeFirst` shows), yet
the function returns `none` — refuting "returns none iff no probe path
exists". -/
theorem c6_counterexample :
    findPapirusIcon ["/t/Papirus"]
      (fun p => p == "/t/Papirus/scalable/apps/a.b.svg") "a.b" = none ∧
    specProbeFirst ["/t/Papirus"]
      (fun p => p == "/t/Papirus/scalable/apps/a.b.svg") "a.b" =
      some "/t/Papirus/scalable/apps/a.b.svg" := by decide

/-- C6 amended: for a nonempty candidate name, `_find_papirus_icon`
returns the first existing path of the probe list
`probePaths installs (splitextBase candidate)` — installations in
discovery order, then sizes `scalable, 64x64, …, 16x16`, then categories
`apps, mimetypes, actions, devices, places, status, categories`, then
`.svg` before `.png`, with the probed file name being the
`os.path.splitext`-stripped base of the candidate — and returns `none`
iff no path of that list exists (an empty candidate always gives
`none`). -/
theorem c6_find_first_probe (papirusPaths : List String)
    (fsExists : String → Bool) (iconName : String) (h : iconName ≠ "") :
    (findPapirusIcon papirusPaths fsExists iconName = none ↔
      ∀ p ∈ probePaths papirusPaths (splitextBase iconName), fsExists p = false) ∧
    (∀ p, findPapirusIcon papirusPaths fsExists iconName = some p →
      fsExists p = true ∧
      ∃ l1 l2, probePaths papirusPaths (splitextBase iconName) = l1 ++ p :: l2 ∧
        ∀ q ∈ l1, fsExists q = false) := by
  unfold findPapirusIcon
  rw [if_neg h]
  exact ⟨findLoop_eq_none_iff _ _, fun p hp => findLoop_eq_some _ _ p hp⟩

/-- Witness instantiating `c6_find_first_probe` at a concrete input. -/
theorem c6_find_first_probe_witness :
    (findPapirusIcon ["/t"] (fun _ => false) "a" = none ↔
      ∀ p ∈ probePaths ["/t"] (splitextBase "a"), (fun _ => false) p = false) ∧
    (∀ p, findPapirusIcon ["/t"] (fun _ => false) "a" = some p →
      (fun _ => false) p = true ∧
      ∃ l1 l2, probePaths ["/t"] (splitextBase "a") = l1 ++ p :: l2 ∧
        ∀ q ∈ l1, (fun _ => false) q = false) :=
  c6_find_first_probe ["/t"] (fun _ => false) "a" (by decide)

/-! ## C3 -/

/-- C3 counterexample: when the icon-lookup capability (GTK) is
unavailable, `_resolve_icon_path` returns `None` for every input — the
`GTK_AVAILABLE` guard at the top of the function runs before the
absolute-path check, so even an absolute path that exists on disk
(here `/tmp/x.png`, with a file system where every path exists) is not
returned, refuting "in every system state, including when the
icon-lookup capability is unavailable". -/
theorem c3_counterexample :
    resolveIconPath false (fun _ => true) (fun _ => none) "/tmp/x.png" = none ∧
    startsWithL "/tmp/x.png" "/" = true := by decide

/-- C3 amended: when the icon-lookup capability is available, an icon
name that is an absolute path and exists on disk is returned directly,
before any delegation to the lookup function; but when the capability is
unavailable the resolver returns `None` for every input, absolute
existing paths included. -/
theorem c3_absolute_path_shortcut (fsExists : String → Bool)
    (gtkLookup : String → Option String) (iconName : String)
    (h1 : startsWithL iconName "/" = true) (h2 : fsExists iconName = true) :
    resolveIconPath true fsExists gtkLookup iconName = some iconName ∧
    resolveIconPath false fsExists gtkLookup iconName = none := by
  have hne : iconName ≠ "" := by
    intro he
    subst he
    simp [startsWithL, leadsWith] at h1
  constructor
  · simp [resolveIconPath, hne, h1, h2]
  · simp [resolveIconPath]

/-- Witness instantiating `c3_absolute_path_shortcut` at a concrete
input. -/
theorem c3_absolute_path_shortcut_witness :
    resolveIconPath true (fun _ => true) (fun _ => none) "/a" = some "/a" ∧
    resolveIconPath false (fun _ => true) (fun _ => none) "/a" = none :=
  c3_absolute_path_shortcut (fun _ => true) (fun _ => none) "/a"
    (by decide) (by decide)

/-! ## C4 -/

/-- C4 counterexample: for zero applications, `_print_summary` emits the
three count lines but no coverage line at all (the `total_apps > 0`
guard skips it), refuting "the percentage is reported as 0 when the
total application count is 0". -/
theorem c4_counterexample :
    (printSummary false 0 [] []).all (fun l => !isCoverageLine l) = true ∧
    printSummary false 0 [] [] =
      [SummaryLine.separator, SummaryLine.summaryHeader,
       SummaryLine.totalChecked 0, SummaryLine.usingPapirus 0,
       SummaryLine.notUsingPapirus 0] := by decide

theorem groupLines_no_coverage (g : String × List NonPapirusApp) :
    ∀ x ∈ groupLines g, isCoverageLine x = false := by
  intro x hx
  unfold groupLines at hx
  rcases List.mem_cons.mp hx with rfl | hx
  · rfl
  rcases List.mem_append.mp hx with hx | hx
  · obtain ⟨a, _, hxa⟩ := List.mem_flatMap.mp hx
    rcases List.mem_cons.mp hxa with rfl | hxa
    · rfl
    · split at hxa <;> rcases List.mem_singleton.mp hxa with rfl <;> rfl
  · split at hx
    · rcases List.mem_singleton.mp hx with rfl
      rfl
    · simp at hx

theorem summaryBreakdown_no_coverage (d : Bool) (na : List NonPapirusApp) :
    ∀ x ∈ summaryBreakdown d na, isCoverageLine x = false := by
  intro x hx
  unfold summaryBreakdown at hx
  split at hx
  · rcases List.mem_cons.mp hx with rfl | hx
    · rfl
    · obtain ⟨g, _, hxg⟩ := List.mem_flatMap.mp hx
      exact groupLines_no_coverage g x hxg
  · simp at hx

/-- C4 amended: `_print_summary` always emits the total, matching and
non-matching counts; the coverage line (rendered by the source as the
percentage `papirus/total*100` with one decimal place) is emitted iff the
total is positive — for a zero total it is omitted entirely and no
division is performed — and any coverage line that appears carries
exactly those two counts. -/
theorem c4_summary_counts_and_coverage (debugMode : Bool) (totalApps : Nat)
    (papirusApps : List PapirusApp) (nonPapirusApps : List NonPapirusApp) :
    SummaryLine.totalChecked totalApps ∈
      printSummary debugMode totalApps papirusApps nonPapirusApps ∧
    SummaryLine.usingPapirus papirusApps.length ∈
      printSummary debugMode totalApps papirusApps nonPapirusApps ∧
    SummaryLine.notUsingPapirus nonPapirusApps.length ∈
      printSummary debugMode totalApps papirusApps nonPapirusApps ∧
    (SummaryLine.coverage papirusApps.length totalApps ∈
      printSummary debugMode totalApps papirusApps nonPapirusApps ↔ 0 < totalApps) ∧
    (∀ p t, SummaryLine.coverage p t ∈
      printSummary debugMode totalApps papirusApps nonPapirusApps →
      p = papirusApps.length ∧ t = totalApps) := by
  refine ⟨?_, ?_, ?_, ?_, ?_⟩
  · simp [printSummary]
  · simp [printSummary]
  · simp [printSummary]
  · constructor
    · intro hmem
      simp only [printSummary, List.mem_append] at hmem
      rcases hmem with (hmem | hmem) | hmem
      · simp at hmem
      · split at hmem
        · assumption
        · simp at hmem
      · have := summaryBreakdown_no_coverage debugMode nonPapirusApps _ hmem
        simp [isCoverageLine] at this
    · intro hpos
      simp [printSummary, hpos]
  · intro p t hmem
    simp only [printSummary, List.mem_append] at hmem
    rcases hmem with (hmem | hmem) | hmem
    · simp at hmem
    · split at hmem
      · have h := List.mem_singleton.mp hmem
        injection h with h1 h2
        exact ⟨h1, h2⟩
      · simp at hmem
    · have := summaryBreakdown_no_coverage debugMode nonPapirusApps _ hmem
      simp [isCoverageLine] at this

/-! ## C7 -/

/-- C7: a successfully read descriptor file yields no descriptor exactly
when it lacks a `Desktop Entry` section, or its `Type` is not
`application` case-insensitively, or its `NoDisplay` is `true`
case-insensitively; in every other case `_parse_desktop_file` yields
exactly one descriptor record (`some`). -/
theorem c7_descriptor_filter (home : String) (cfg : Cfg) (filepath : String) :
    parseDesktopFile home cfg filepath = none ↔
      ∀ entry, lookupSection cfg ("Desktop Entry".toList) = some entry →
        (lowerL (getOptionD entry "Type".toList []) ≠ "application".toList ∨
         lowerL (getOptionD entry "NoDisplay".toList []) = "true".toList) := by
  unfold parseDesktopFile
  cases h : lookupSection cfg ("Desktop Entry".toList) with
  | none => simp
  | some entry =>
    simp
    tauto

/-! ## Lemmas about `lowerChar` and `trimL` -/

theorem lowerChar_cases (c : Char) :
    lowerChar c = c ∨ ∃ p ∈ upperLowerTable, p.1 = c ∧ lowerChar c = p.2 := by
  unfold lowerChar
  cases h : upperLowerTable.find? (fun p => p.1 = c) with
  | none => exact Or.inl rfl
  | some p =>
    have h1 := List.find?_some h
    have h2 := List.mem_of_find?_eq_some h
    exact Or.inr ⟨p, h2, by simpa using h1, rfl⟩

theorem upperLowerTable_facts :
    ∀ p ∈ upperLowerTable, isSpaceC p.1 = false ∧ isSpaceC p.2 = false ∧
      isDelim p.1 = false ∧ isDelim p.2 = false ∧
      p.2 ≠ '#' ∧ p.2 ≠ ';' ∧ p.2 ≠ '[' ∧ lowerChar p.2 = p.2 := by decide

theorem lowerChar_idem (c : Char) : lowerChar (lowerChar c) = lowerChar c := by
  rcases lowerChar_cases c with h | ⟨p, hp, _, he⟩
  · rw [h, h]
  · rw [he]
    exact (upperLowerTable_facts p hp).2.2.2.2.2.2.2

theorem lowerChar_space (c : Char) : isSpaceC (lowerChar c) = isSpaceC c := by
  rcases lowerChar_cases c with h | ⟨p, hp, hc, he⟩
  · rw [h]
  · rw [he, ← hc, (upperLowerTable_facts p hp).1, (upperLowerTable_facts p hp).2.1]

theorem lowerChar_delim (c : Char) : isDelim (lowerChar c) = isDelim c := by
  rcases lowerChar_cases c with h | ⟨p, hp, hc, he⟩
  · rw [h]
  · rw [he, ← hc, (upperLowerTable_facts p hp).2.2.1, (upperLowerTable_facts p hp).2.2.2.1]

theorem lowerChar_marker (c : Char) (m : Char) (hm : m = '#' ∨ m = ';' ∨ m = '[')
    (h : c ≠ m) : lowerChar c ≠ m := by
  rcases lowerChar_cases c with hc | ⟨p, hp, _, he⟩
  · rwa [hc]
  · rw [he]
    have hf := upperLowerTable_facts p hp
    rcases hm with rfl | rfl | rfl
    · exact hf.2.2.2.2.1
    · exact hf.2.2.2.2.2.1
    · exact hf.2.2.2.2.2.2.1

theorem lowerL_idem (l : List Char) : lowerL (lowerL l) = lowerL l := by
  unfold lowerL
  rw [List.map_map]
  exact List.map_congr_left (fun c _ => lowerChar_idem c)

theorem trimL_nil : trimL [] = [] := rfl

theorem trim_fix_parts (l : List Char) (h : trimL l = l) :
    l.dropWhile isSpaceC = l ∧ List.rdropWhile isSpaceC l = l := by
  have hs1 : (l.dropWhile isSpaceC).Sublist l := List.dropWhile_sublist _
  have hp2 : List.rdropWhile isSpaceC (l.dropWhile isSpaceC) <+: l.dropWhile isSpaceC :=
    List.rdropWhile_prefix _ _
  have hlen : l.length ≤ (List.rdropWhile isSpaceC (l.dropWhile isSpaceC)).length := by
    unfold trimL at h
    rw [h]
  have h1len : (l.dropWhile isSpaceC).length = l.length :=
    Nat.le_antisymm hs1.length_le (le_trans hlen hp2.sublist.length_le)
  have h1 : l.dropWhile isSpaceC = l := hs1.eq_of_length h1len
  refine ⟨h1, ?_⟩
  unfold trimL at h
  rwa [h1] at h

theorem dropWhile_fix_head (d : Char) (u : List Char)
    (h : List.dropWhile isSpaceC (d :: u) = d :: u) : isSpaceC d = false := by
  by_cases hd : isSpaceC d = true
  · rw [List.dropWhile_cons, if_pos hd] at h
    have h2 : (List.dropWhile isSpaceC u).length ≤ u.length :=
      (List.dropWhile_sublist isSpaceC).length_le
    have h3 := congrArg List.length h
    simp at h3
    omega
  · simpa using hd

theorem trim_head_not_space (c : Char) (t : List Char)
    (h : trimL (c :: t) = c :: t) : isSpaceC c = false :=
  dropWhile_fix_head c t (trim_fix_parts _ h).1

theorem trim_last_not_space (l : List Char) (h : trimL l = l) (hne : l ≠ []) :
    isSpaceC (l.getLast hne) = false := by
  have h2 := (trim_fix_parts _ h).2
  have := List.rdropWhile_eq_self_iff.mp h2 hne
  simpa using this

theorem trim_eq_self_of (l : List Char)
    (h1 : ∀ c t, l = c :: t → isSpaceC c = false)
    (h2 : ∀ hl : l ≠ [], isSpaceC (l.getLast hl) = false) : trimL l = l := by
  unfold trimL
  have hd : l.dropWhile isSpaceC = l := by
    cases l with
    | nil => rfl
    | cons c t =>
      rw [List.dropWhile_cons, if_neg (by simp [h1 c t rfl])]
  rw [hd]
  exact List.rdropWhile_eq_self_iff.mpr (fun hl => by simp [h2 hl])

theorem spaceLower_pred : (isSpaceC ∘ lowerChar) = isSpaceC := by
  funext c
  exact lowerChar_space c

theorem dropWhile_lower (x : List Char) :
    List.dropWhile isSpaceC (lowerL x) = lowerL (List.dropWhile isSpaceC x) := by
  unfold lowerL
  rw [List.dropWhile_map, spaceLower_pred]

theorem rdropWhile_lower (x : List Char) :
    List.rdropWhile isSpaceC (lowerL x) = lowerL (List.rdropWhile isSpaceC x) := by
  unfold List.rdropWhile lowerL
  rw [← List.map_reverse lowerChar x, List.dropWhile_map, spaceLower_pred,
    List.map_reverse]

theorem trim_lower_comm (l : List Char) : trimL (lowerL l) = lowerL (trimL l) := by
  unfold trimL
  rw [dropWhile_lower, rdropWhile_lower]

theorem dropWhile_rdropWhile_fix (x : List Char)
    (hx : List.dropWhile isSpaceC x = x) :
    List.dropWhile isSpaceC (List.rdropWhile isSpaceC x) =
      List.rdropWhile isSpaceC x := by
  cases h : List.rdropWhile isSpaceC x with
  | nil => rfl
  | cons c t =>
    have hpre := List.rdropWhile_prefix isSpaceC x
    rw [h] at hpre
    cases x with
    | nil => exact absurd (List.prefix_nil.mp hpre) (by simp)
    | cons d u =>
      have hcd : c = d := by simpa using hpre.head (by simp)
      have hds : isSpaceC d = false := dropWhile_fix_head d u hx
      rw [List.dropWhile_cons, if_neg (by rw [hcd]; simp [hds])]

theorem trim_idem (l : List Char) : trimL (trimL l) = trimL l := by
  unfold trimL
  rw [dropWhile_rdropWhile_fix _ (List.dropWhile_idempotent isSpaceC l),
    List.rdropWhile_idempotent]

/-! ## Line-level round-trip lemmas for the `configparser` model -/

theorem classify_header_line (n : List Char) (h : wfSecName n) :
    classifyLine ('[' :: (n ++ [']'])) = PLine.header n := by
  obtain ⟨hne, hnb, hnd⟩ := h
  have hline : trimL ('[' :: (n ++ [']'])) = '[' :: (n ++ [']']) := by
    unfold trimL
    rw [List.dropWhile_cons, if_neg (by decide)]
    exact List.rdropWhile_concat_neg isSpaceC ('[' :: n) ']' (by decide)
  have htake2 : List.takeWhile (fun c => !decide (c = ']')) (n ++ [']']) = n := by
    rw [List.takeWhile_append_of_pos ?_]
    · simp
    · intro a ha
      have := List.all_eq_true.mp hnb a ha
      simpa using this
  unfold classifyLine
  simp only [hline]
  cases n with
  | nil => exact absurd rfl hne
  | cons c t =>
    have hc : c ≠ ']' := by
      have := List.all_eq_true.mp hnb c (List.mem_cons_self _ _)
      simpa using this
    have htake3 : List.takeWhile (fun c => !decide (c = ']')) (t ++ [']']) = t := by
      simp only [List.cons_append, List.takeWhile_cons] at htake2
      rw [if_pos (by simp [hc])] at htake2
      exact (List.cons.injEq _ _ _ _ ▸ htake2).2
    simp [htake3, hc]
    rw [if_pos (show c = 'D' → ¬t = ['E', 'F', 'A', 'U', 'L', 'T'] from
      fun h1 h2 => hnd (by rw [h1, h2]; decide))]
    rw [if_neg (by decide)]


theorem rdropWhile_append_fix (x y : List Char) (hy : y ≠ [])
    (h : List.rdropWhile isSpaceC y = y) :
    List.rdropWhile isSpaceC (x ++ y) = x ++ y := by
  unfold List.rdropWhile at h ⊢
  have h2 : List.dropWhile isSpaceC y.reverse = y.reverse := by
    have := congrArg List.reverse h
    simpa using this
  rw [List.reverse_append, List.dropWhile_append, h2]
  simp [hy]

theorem notDelim_pred :
    (fun c => decide (¬isDelim c = true)) = (fun c => !isDelim c) := by
  funext c
  simp


theorem classify_opt_line (k v : List Char) (hk : wfKey k) (hv : wfVal v) :
    classifyLine (optLine (k, v)) = PLine.kv k v := by
  obtain ⟨hk0, hk1, hk2, hk3, hk4, hk5, hk6⟩ := hk
  cases k with
  | nil => exact absurd rfl hk0
  | cons a t =>
    have haS : isSpaceC a = false := trim_head_not_space a t hk1
    have hkfix := trim_fix_parts _ hk1
    have hvfix := trim_fix_parts _ hv
    have hkall : ∀ x ∈ (a :: t) ++ [' '], (!isDelim x) = true := by
      intro x hx
      rcases List.mem_append.mp hx with hx | hx
      · have := List.all_eq_true.mp hk3 x hx
        simpa using this
      · rcases List.mem_singleton.mp hx with rfl
        decide
    have htrimk : trimL ((a :: t) ++ [' ']) = a :: t := by
      unfold trimL
      rw [List.cons_append, List.dropWhile_cons, if_neg (by simp [haS]),
        ← List.cons_append,
        List.rdropWhile_concat_pos isSpaceC (a :: t) ' ' (by decide), hkfix.2]
    have hkey : lowerL (trimL ((a :: t) ++ [' '])) = a :: t := by
      rw [htrimk, hk2]
    have ha4 : a ≠ '#' := by
      intro hc
      exact hk4 (by rw [hc]; rfl)
    have ha5 : a ≠ ';' := by
      intro hc
      exact hk5 (by rw [hc]; rfl)
    have ha6 : a ≠ '[' := by
      intro hc
      exact hk6 (by rw [hc]; rfl)
    cases v with
    | nil =>
      have hline : trimL ((a :: t) ++ ([' '] ++ (['='] ++ [' ']))) =
          ((a :: t) ++ [' ']) ++ ['='] := by
        unfold trimL
        rw [List.cons_append, List.dropWhile_cons, if_neg (by simp [haS]),
          ← List.cons_append]
        rw [show (a :: t) ++ ([' '] ++ (['='] ++ [' '])) =
            ((((a :: t) ++ [' ']) ++ ['=']) ++ [' ']) by simp]
        rw [List.rdropWhile_concat_pos isSpaceC _ ' ' (by decide),
          List.rdropWhile_concat_neg isSpaceC _ '=' (by decide)]
      have htakev : List.takeWhile (fun c => !isDelim c)
          (((a :: t) ++ [' ']) ++ ['=']) = (a :: t) ++ [' '] := by
        rw [List.takeWhile_append_of_pos hkall]
        rw [List.takeWhile_cons, if_neg (by decide)]
        simp
      have hdropv : (((a :: t) ++ [' ']) ++ ['=']).drop ((a :: t) ++ [' ']).length =
          ['='] := List.drop_left _ _
      show classifyLine ((a :: t) ++ (' ' :: '=' :: ' ' :: [])) = PLine.kv (a :: t) []
      unfold classifyLine
      rw [show (a :: t) ++ (' ' :: '=' :: ' ' :: []) =
          (a :: t) ++ ([' '] ++ (['='] ++ [' '])) by simp]
      simp only [hline]
      rw [show ((a :: t) ++ [' ']) ++ ['='] = a :: ((t ++ [' ']) ++ ['=']) by simp]
      simp only [List.isEmpty_cons, List.head?_cons]
      rw [if_neg (by decide)]
      rw [if_neg ?hcm]
      case hcm =>
        simp only [Option.some.injEq]
        push_neg
        exact ⟨ha4, ha5⟩
      rw [if_neg ?hsp]
      case hsp =>
        simp [haS]
      rw [if_neg (by simp [ha6])]
      rw [show a :: ((t ++ [' ']) ++ ['=']) = ((a :: t) ++ [' ']) ++ ['='] by simp]
      simp only [notDelim_pred]
      rw [htakev]
      rw [if_neg (by simp)]
      rw [hkey]
      rw [if_neg (by simp)]
      rw [hdropv]
      simp [trimL]
    | cons w u =>
      have hline : trimL ((a :: t) ++ (' ' :: '=' :: ' ' :: (w :: u))) =
          (a :: t) ++ (' ' :: '=' :: ' ' :: (w :: u)) := by
        unfold trimL
        rw [List.cons_append, List.dropWhile_cons, if_neg (by simp [haS]),
          ← List.cons_append]
        rw [show (a :: t) ++ (' ' :: '=' :: ' ' :: (w :: u)) =
            ((a :: t) ++ [' ', '=', ' ']) ++ (w :: u) by simp]
        exact rdropWhile_append_fix _ _ (by simp) hvfix.2
      have htakev : List.takeWhile (fun c => !isDelim c)
          (((a :: t) ++ [' ']) ++ ('=' :: ' ' :: (w :: u))) = (a :: t) ++ [' '] := by
        rw [List.takeWhile_append_of_pos hkall]
        rw [List.takeWhile_cons, if_neg (by decide)]
        simp
      have hdropv : (((a :: t) ++ [' ']) ++ ('=' :: ' ' :: (w :: u))).drop
          ((a :: t) ++ [' ']).length = '=' :: ' ' :: (w :: u) := List.drop_left _ _
      have hvaltrim : trimL (' ' :: (w :: u)) = w :: u := by
        unfold trimL
        rw [List.dropWhile_cons, if_pos (by decide), hvfix.1, hvfix.2]
      unfold classifyLine
      simp only [optLine]
      simp only [hline]
      rw [show (a :: t) ++ (' ' :: '=' :: ' ' :: (w :: u)) =
          a :: (t ++ (' ' :: '=' :: ' ' :: (w :: u))) by simp]
      simp only [List.isEmpty_cons, List.head?_cons]
      rw [if_neg (by decide)]
      rw [if_neg ?hcm2]
      case hcm2 =>
        simp only [Option.some.injEq]
        push_neg
        exact ⟨ha4, ha5⟩
      rw [if_neg ?hsp2]
      case hsp2 =>
        simp [haS]
      rw [if_neg (by simp [ha6])]
      rw [show a :: (t ++ (' ' :: '=' :: ' ' :: (w :: u))) =
          ((a :: t) ++ [' ']) ++ ('=' :: ' ' :: (w :: u)) by simp]
      simp only [notDelim_pred]
      rw [htakev]
      rw [if_neg (by simp)]
      rw [hkey]
      rw [if_neg (by simp)]
      rw [hdropv]
      simp only [List.drop_one, List.tail_cons]
      rw [hvaltrim]

theorem mem_of_mem_trimL (x : Char) (z : List Char) (h : x ∈ trimL z) : x ∈ z := by
  unfold trimL at h
  have h1 := (List.rdropWhile_prefix isSpaceC (z.dropWhile isSpaceC)).sublist.subset h
  exact (List.dropWhile_sublist isSpaceC).subset h1

theorem trimL_head_of_fix (c : Char) (rest : List Char) (hc : isSpaceC c = false)
    (hne : trimL (c :: rest) ≠ []) : (trimL (c :: rest)).head? = some c := by
  unfold trimL at hne ⊢
  rw [List.dropWhile_cons, if_neg (by simp [hc])] at hne ⊢
  have hpre := List.rdropWhile_prefix isSpaceC (c :: rest)
  cases hh : List.rdropWhile isSpaceC (c :: rest) with
  | nil => exact absurd hh hne
  | cons d s =>
    rw [hh] at hpre
    have hd := hpre.head (by simp)
    simp only [List.head_cons] at hd
    simp [hd]

theorem classify_blank_line : classifyLine [] = PLine.blank := by
  unfold classifyLine
  simp [trimL_nil]

theorem classifyLine_eq (line : List Char) : classifyLine line =
    if (trimL line).isEmpty then PLine.blank
    else if (trimL line).head? = some '#' ∨ (trimL line).head? = some ';' then
      PLine.comment
    else if (line.head?.map isSpaceC).getD false then PLine.bad
    else if (trimL line).head? = some '[' then
      (if (((trimL line).drop 1).any (fun c => c = ']')) = true ∧
          ((trimL line).drop 1).takeWhile (fun c => c ≠ ']') ≠ [] ∧
          ((trimL line).drop 1).takeWhile (fun c => c ≠ ']') ≠ "DEFAULT".toList then
        PLine.header (((trimL line).drop 1).takeWhile (fun c => c ≠ ']'))
      else PLine.bad)
    else
      (if ((trimL line).takeWhile (fun c => ¬isDelim c)).length = (trimL line).length then
        PLine.bad
      else if lowerL (trimL ((trimL line).takeWhile (fun c => ¬isDelim c))) = [] then
        PLine.bad
      else
        PLine.kv (lowerL (trimL ((trimL line).takeWhile (fun c => ¬isDelim c))))
          (trimL (((trimL line).drop
            ((trimL line).takeWhile (fun c => ¬isDelim c)).length).drop 1))) := rfl

theorem classify_header_wf (l n : List Char)
    (h : classifyLine l = PLine.header n) : wfSecName n := by
  rw [classifyLine_eq] at h
  split at h
  · simp at h
  split at h
  · simp at h
  split at h
  · simp at h
  split at h
  · split at h
    · rename_i hcond
      obtain ⟨-, h2, h3⟩ := hcond
      injection h with he
      subst he
      refine ⟨h2, ?_, h3⟩
      rw [List.all_eq_true]
      intro x hx
      have := List.mem_takeWhile_imp hx
      simpa using this
    · simp at h
  · split at h
    · simp at h
    split at h
    · simp at h
    simp at h

theorem classify_kv_wf (l k v : List Char)
    (h : classifyLine l = PLine.kv k v) : wfKey k ∧ wfVal v := by
  rw [classifyLine_eq] at h
  split at h
  · simp at h
  rename_i hne
  split at h
  · simp at h
  rename_i hcm
  split at h
  · simp at h
  rename_i hsp
  split at h
  · split at h <;> simp at h
  rename_i hhd
  split at h
  · simp at h
  rename_i hlen
  split at h
  · simp at h
  rename_i hkeyne
  injection h with hk0 hv0
  subst hk0
  subst hv0
  refine ⟨?_, trim_idem _⟩
  have hkpne : trimL (List.takeWhile (fun c => ¬isDelim c) (trimL l)) ≠ [] := by
    intro hz
    apply hkeyne
    unfold lowerL
    rw [hz]
    rfl
  have hkpartne : List.takeWhile (fun c => ¬isDelim c) (trimL l) ≠ [] := by
    intro hz
    apply hkpne
    rw [hz]
    rfl
  have hvtne : trimL l ≠ [] := by
    intro hz
    apply hkpartne
    rw [hz]
    rfl
  have hvtfix : trimL (trimL l) = trimL l := trim_idem l
  cases hvtc : trimL l with
  | nil => exact absurd hvtc hvtne
  | cons c rest =>
    rw [hvtc] at hvtfix hkpne hkpartne hcm hhd
    have hcs : isSpaceC c = false := trim_head_not_space c rest hvtfix
    have hpredc : decide (¬isDelim c = true) = true := by
      by_contra hpc
      apply hkpartne
      rw [List.takeWhile_cons, if_neg (by simpa using hpc)]
    have hkpart_cons : List.takeWhile (fun c => ¬isDelim c) (c :: rest) =
        c :: List.takeWhile (fun c => ¬isDelim c) rest := by
      rw [List.takeWhile_cons, if_pos hpredc]
    have hc4 : c ≠ '#' := by
      intro hcc
      exact hcm (Or.inl (by rw [hcc]; rfl))
    have hc5 : c ≠ ';' := by
      intro hcc
      exact hcm (Or.inr (by rw [hcc]; rfl))
    have hc6 : c ≠ '[' := by
      intro hcc
      exact hhd (by rw [hcc]; rfl)
    have hheadtrim : (trimL (List.takeWhile (fun c => ¬isDelim c) (c :: rest))).head? =
        some c := by
      rw [hkpart_cons]
      rw [hkpart_cons] at hkpne
      exact trimL_head_of_fix c _ hcs hkpne
    have hheadkey : (lowerL (trimL (List.takeWhile (fun c => ¬isDelim c) (c :: rest)))).head? =
        some (lowerChar c) := by
      unfold lowerL
      rw [List.head?_map, hheadtrim]
      rfl
    rw [hvtc] at hkeyne
    refine ⟨hkeyne, ?_, lowerL_idem _, ?_, ?_, ?_, ?_⟩
    · rw [trim_lower_comm, trim_idem]
    · rw [List.all_eq_true]
      intro x hx
      simp only [lowerL, List.mem_map] at hx
      obtain ⟨y, hy, rfl⟩ := hx
      have hy2 := mem_of_mem_trimL _ _ hy
      have hdy := List.mem_takeWhile_imp hy2
      have hdy2 : isDelim y = false := by simpa using hdy
      simp [lowerChar_delim, hdy2]
    · rw [hheadkey]
      intro hcc
      have : lowerChar c = '#' := by simpa using hcc
      exact lowerChar_marker c '#' (Or.inl rfl) hc4 this
    · rw [hheadkey]
      intro hcc
      have : lowerChar c = ';' := by simpa using hcc
      exact lowerChar_marker c ';' (Or.inr (Or.inl rfl)) hc5 this
    · rw [hheadkey]
      intro hcc
      have : lowerChar c = '[' := by simpa using hcc
      exact lowerChar_marker c '[' (Or.inr (Or.inr rfl)) hc6 this

theorem not_mem_of_nodup_append (x : List Char) (l1 l2 : List (List Char))
    (h : (l1 ++ (x :: l2)).Nodup) : x ∉ l1 := by
  intro hmem
  rcases List.nodup_append.mp h with ⟨-, -, hdisj⟩
  exact hdisj hmem (List.mem_cons_self _ _)

theorem parseCfgGo_opts (n : List Char) (opts pending : CfgSection) (acc : Cfg)
    (rest : List (List Char))
    (hwf : ∀ kv ∈ opts, wfKey kv.1 ∧ wfVal kv.2)
    (hnodup : ((pending ++ opts).map Prod.fst).Nodup) :
    parseCfgGo acc (some (n, pending)) (opts.map optLine ++ rest) =
      parseCfgGo acc (some (n, pending ++ opts)) rest := by
  induction opts generalizing pending with
  | nil => simp
  | cons kv opts ih =>
    have hkv := hwf kv (List.mem_cons_self _ _)
    have hmem : kv.1 ∉ pending.map Prod.fst := by
      apply not_mem_of_nodup_append kv.1 (pending.map Prod.fst) (opts.map Prod.fst)
      simpa using hnodup
    have hdup : (pending.any fun p => p.1 == kv.1) = false := by
      rw [List.any_eq_false]
      intro p hp
      simp only [beq_iff_eq]
      intro he
      exact hmem (he ▸ List.mem_map_of_mem Prod.fst hp)
    simp only [List.map_cons, List.cons_append]
    simp only [parseCfgGo]
    rw [show optLine kv = optLine (kv.1, kv.2) from rfl,
      classify_opt_line kv.1 kv.2 hkv.1 hkv.2]
    simp only [hdup, Bool.false_eq_true, if_false]
    rw [ih (pending ++ [(kv.1, kv.2)]) ?_ ?_]
    · simp
    · intro x hx
      exact hwf x (List.mem_cons_of_mem _ hx)
    · simpa using hnodup

theorem parseCfgGo_sections (cfg : Cfg) (acc : Cfg)
    (cur : Option (List Char × CfgSection))
    (hwf : ∀ s ∈ cfg, wfSection s)
    (hnodup : ((flushSection acc cur ++ cfg).map Prod.fst).Nodup) :
    parseCfgGo acc cur (writeCfg cfg) = some (flushSection acc cur ++ cfg) := by
  induction cfg generalizing acc cur with
  | nil => simp [writeCfg, parseCfgGo]
  | cons s cfgrest ih =>
    have hs := hwf s (List.mem_cons_self _ _)
    have hmem : s.1 ∉ (flushSection acc cur).map Prod.fst := by
      apply not_mem_of_nodup_append s.1 _ (cfgrest.map Prod.fst)
      simpa using hnodup
    have hdup : ((flushSection acc cur).any fun x => x.1 == s.1) = false := by
      rw [List.any_eq_false]
      intro p hp
      simp only [beq_iff_eq]
      intro he
      exact hmem (he ▸ List.mem_map_of_mem Prod.fst hp)
    rw [show writeCfg (s :: cfgrest) =
        ('[' :: (s.1 ++ [']'])) :: (s.2.map optLine ++ ([] :: writeCfg cfgrest)) from by
      simp [writeCfg, writeSection]]
    simp only [parseCfgGo]
    rw [classify_header_line s.1 hs.1]
    simp only [hdup, Bool.false_eq_true, if_false]
    rw [parseCfgGo_opts s.1 s.2 [] (flushSection acc cur) ([] :: writeCfg cfgrest)
      hs.2.2 (by simpa using hs.2.1)]
    simp only [List.nil_append]
    rw [show parseCfgGo (flushSection acc cur) (some (s.1, s.2)) ([] :: writeCfg cfgrest) =
        parseCfgGo (flushSection acc cur) (some (s.1, s.2)) (writeCfg cfgrest) from by
      simp only [parseCfgGo, classify_blank_line]]
    have hnd : ((flushSection (flushSection acc cur) (some (s.1, s.2)) ++
        cfgrest).map Prod.fst).Nodup := by
      simp only [flushSection]
      simpa using hnodup
    rw [ih (flushSection acc cur) (some (s.1, s.2))
      (fun x hx => hwf x (List.mem_cons_of_mem _ hx)) hnd]
    simp [flushSection]

theorem parse_write_roundtrip (cfg : Cfg) (h : wfCfg cfg) :
    parseCfg (writeCfg cfg) = some cfg := by
  unfold parseCfg
  have := parseCfgGo_sections cfg [] none h.2 (by simpa [flushSection] using h.1)
  simpa [flushSection] using this

theorem wfCfg_append_section (cfg : Cfg) (name : List Char)
    (h : wfCfg cfg) (hn : wfSecName name) (hmem : name ∉ cfg.map Prod.fst) :
    wfCfg (cfg ++ [(name, [])]) := by
  constructor
  · rw [List.map_append]
    apply List.Nodup.append h.1 (by simp)
    intro a ha hb
    simp only [List.map_cons, List.map_nil, List.mem_singleton] at hb
    subst hb
    exact hmem ha
  · intro s hs
    rcases List.mem_append.mp hs with hs | hs
    · exact h.2 s hs
    · rcases List.mem_singleton.mp hs with rfl
      exact ⟨hn, by simp, by simp⟩

theorem wfCfg_extend_last (acc : Cfg) (s : List Char × CfgSection) (k v : List Char)
    (h : wfCfg (acc ++ [s])) (hk : wfKey k) (hv : wfVal v)
    (hmem : k ∉ s.2.map Prod.fst) :
    wfCfg (acc ++ [(s.1, s.2 ++ [(k, v)])]) := by
  obtain ⟨h1, h2⟩ := h
  constructor
  · simpa using h1
  · intro x hx
    rcases List.mem_append.mp hx with hx | hx
    · exact h2 x (List.mem_append.mpr (Or.inl hx))
    · rcases List.mem_singleton.mp hx with rfl
      have hsw := h2 s (List.mem_append.mpr (Or.inr (List.mem_singleton.mpr rfl)))
      refine ⟨hsw.1, ?_, ?_⟩
      · rw [List.map_append]
        apply List.Nodup.append hsw.2.1 (by simp)
        intro a ha hb
        simp only [List.map_cons, List.map_nil, List.mem_singleton] at hb
        subst hb
        exact hmem ha
      · intro kv hkv
        rcases List.mem_append.mp hkv with hkv | hkv
        · exact hsw.2.2 kv hkv
        · rcases List.mem_singleton.mp hkv with rfl
          exact ⟨hk, hv⟩

theorem parseCfgGo_wf (lines : List (List Char)) :
    ∀ acc cur cfg, parseCfgGo acc cur lines = some cfg →
      wfCfg (flushSection acc cur) → wfCfg cfg := by
  induction lines with
  | nil =>
    intro acc cur cfg h hwf
    simp only [parseCfgGo, Option.some.injEq] at h
    exact h ▸ hwf
  | cons l ls ih =>
    intro acc cur cfg h hwf
    simp only [parseCfgGo] at h
    cases hcl : classifyLine l with
    | blank =>
      rw [hcl] at h
      exact ih _ _ _ h hwf
    | comment =>
      rw [hcl] at h
      exact ih _ _ _ h hwf
    | bad =>
      rw [hcl] at h
      exact Option.noConfusion h
    | header name =>
      have h2 : (if ((flushSection acc cur).any fun s => s.1 == name) = true then none
          else parseCfgGo (flushSection acc cur) (some (name, [])) ls) = some cfg := by
        rw [hcl] at h
        exact h
      by_cases hdup : ((flushSection acc cur).any fun s => s.1 == name) = true
      · rw [if_pos hdup] at h2
        exact Option.noConfusion h2
      · rw [if_neg hdup] at h2
        apply ih _ _ _ h2
        simp only [flushSection]
        apply wfCfg_append_section _ _ hwf (classify_header_wf l name hcl)
        intro hmem
        rw [Bool.not_eq_true, List.any_eq_false] at hdup
        obtain ⟨x, hx, hfst⟩ := List.mem_map.mp hmem
        exact absurd (by simp [hfst]) (hdup x hx)
    | kv k v =>
      cases cur with
      | none =>
        rw [hcl] at h
        exact Option.noConfusion h
      | some s =>
        have h3 : (if (s.2.any fun kv2 => kv2.1 == k) = true then none
            else parseCfgGo acc (some (s.1, s.2 ++ [(k, v)])) ls) = some cfg := by
          rw [hcl] at h
          exact h
        by_cases hdup : (s.2.any fun kv2 => kv2.1 == k) = true
        · rw [if_pos hdup] at h3
          exact Option.noConfusion h3
        · rw [if_neg hdup] at h3
          apply ih _ _ _ h3
          simp only [flushSection] at hwf ⊢
          obtain ⟨hwk, hwv⟩ := classify_kv_wf l k v hcl
          apply wfCfg_extend_last _ _ _ _ hwf hwk hwv
          intro hmem
          rw [Bool.not_eq_true, List.any_eq_false] at hdup
          obtain ⟨x, hx, hfst⟩ := List.mem_map.mp hmem
          exact absurd (by simp [hfst]) (hdup x hx)

theorem parseCfg_wf (lines : List (List Char)) (cfg : Cfg)
    (h : parseCfg lines = some cfg) : wfCfg cfg := by
  refine parseCfgGo_wf lines [] none cfg h ?_
  constructor
  · simp [flushSection]
  · intro s hs
    simp [flushSection] at hs

theorem setIcon_fst (v : List Char) (s : List Char × CfgSection) :
    (if s.1 == "Desktop Entry".toList then
      (s.1, setOptionInSection s.2 ("icon".toList) v) else s).1 = s.1 := by
  by_cases hs : (s.1 == "Desktop Entry".toList) = true
  · rw [if_pos hs]
  · rw [if_neg hs]

theorem lookupSection_setIcon (cfg : Cfg) (v n : List Char) :
    lookupSection (setIcon cfg v) n =
      (lookupSection cfg n).map (fun sec =>
        if n == "Desktop Entry".toList then setOptionInSection sec ("icon".toList) v
        else sec) := by
  unfold lookupSection setIcon
  rw [List.find?_map]
  have hpred : ((fun s : List Char × CfgSection => s.1 == n) ∘
      (fun s : List Char × CfgSection =>
        if s.1 == "Desktop Entry".toList then
          (s.1, setOptionInSection s.2 ("icon".toList) v) else s)) =
      (fun s : List Char × CfgSection => s.1 == n) := by
    funext s
    show ((if s.1 == "Desktop Entry".toList then
      (s.1, setOptionInSection s.2 ("icon".toList) v) else s).1 == n) = (s.1 == n)
    rw [setIcon_fst]
  rw [hpred]
  cases hf : cfg.find? (fun s => s.1 == n) with
  | none => rfl
  | some s =>
    have hs : s.1 = n := by
      have := List.find?_some hf
      simpa using this
    simp only [Option.map]
    by_cases hn : (n == "Desktop Entry".toList) = true
    · rw [if_pos (show (s.1 == "Desktop Entry".toList) = true from by rw [hs]; exact hn),
        if_pos hn]
    · rw [if_neg (show ¬(s.1 == "Desktop Entry".toList) = true from by rw [hs]; exact hn),
        if_neg hn]

theorem setOption_keys (sec : CfgSection) (key v : List Char) :
    (sec.map (fun kv => if kv.1 == key then (kv.1, v) else kv)).map Prod.fst =
      sec.map Prod.fst := by
  rw [List.map_map]
  apply List.map_congr_left
  intro kv _
  show (if kv.1 == key then (kv.1, v) else kv).1 = kv.1
  by_cases hk : (kv.1 == key) = true
  · rw [if_pos hk]
  · rw [if_neg hk]

theorem setIcon_wf (cfg : Cfg) (v : List Char) (h : wfCfg cfg)
    (hval : trimL v = v) : wfCfg (setIcon cfg v) := by
  obtain ⟨h1, h2⟩ := h
  have hicon : wfKey ("icon".toList) := by
    refine ⟨by decide, by decide, by decide, by decide, by decide, by decide, by decide⟩
  constructor
  · have heq : (setIcon cfg v).map Prod.fst = cfg.map Prod.fst := by
      unfold setIcon
      rw [List.map_map]
      apply List.map_congr_left
      intro s _
      exact setIcon_fst v s
    rwa [heq]
  · intro s hs
    unfold setIcon at hs
    obtain ⟨x, hx, hxe⟩ := List.mem_map.mp hs
    have hwx := h2 x hx
    by_cases hxd : (x.1 == "Desktop Entry".toList) = true
    · rw [if_pos hxd] at hxe
      subst hxe
      refine ⟨hwx.1, ?_, ?_⟩
      · show ((setOptionInSection x.2 ("icon".toList) v).map Prod.fst).Nodup
        unfold setOptionInSection
        by_cases hhit : (x.2.any fun kv => kv.1 == "icon".toList) = true
        · rw [if_pos hhit, setOption_keys x.2 _ v]
          exact hwx.2.1
        · rw [if_neg hhit, List.map_append]
          apply List.Nodup.append hwx.2.1 (by simp)
          intro a ha hb
          simp only [List.map_cons, List.map_nil, List.mem_singleton] at hb
          subst hb
          rw [Bool.not_eq_true, List.any_eq_false] at hhit
          obtain ⟨y, hy, hye⟩ := List.mem_map.mp ha
          exact absurd (by simp [hye]) (hhit y hy)
      · intro kv hkv
        show wfKey kv.1 ∧ wfVal kv.2
        unfold setOptionInSection at hkv
        by_cases hhit : (x.2.any fun kv => kv.1 == "icon".toList) = true
        · rw [if_pos hhit] at hkv
          obtain ⟨y, hy, hye⟩ := List.mem_map.mp hkv
          have hwy := hwx.2.2 y hy
          by_cases hyk : (y.1 == "icon".toList) = true
          · rw [if_pos hyk] at hye
            subst hye
            exact ⟨hwy.1, hval⟩
          · rw [if_neg hyk] at hye
            subst hye
            exact hwy
        · rw [if_neg hhit] at hkv
          rcases List.mem_append.mp hkv with hkv | hkv
          · exact hwx.2.2 kv hkv
          · rcases List.mem_singleton.mp hkv with rfl
            exact ⟨hicon, hval⟩
    · rw [if_neg hxd] at hxe
      subst hxe
      exact hwx

theorem getOption_setOption_icon (sec : CfgSection) (v : List Char) :
    getOption (setOptionInSection sec ("icon".toList) v) ("Icon".toList) = some v := by
  unfold getOption setOptionInSection
  have hlow : lowerL ("Icon".toList) = "icon".toList := by decide
  rw [hlow]
  by_cases hhit : (sec.any fun kv => kv.1 == "icon".toList) = true
  · rw [if_pos hhit]
    rw [List.find?_map]
    have hpred : ((fun kv : List Char × List Char => kv.1 == "icon".toList) ∘
        (fun kv : List Char × List Char =>
          if kv.1 == "icon".toList then (kv.1, v) else kv)) =
        (fun kv : List Char × List Char => kv.1 == "icon".toList) := by
      funext kv
      show ((if kv.1 == "icon".toList then (kv.1, v) else kv).1 == "icon".toList) =
        (kv.1 == "icon".toList)
      by_cases hk : (kv.1 == "icon".toList) = true
      · rw [if_pos hk]
      · rw [if_neg hk]
    rw [hpred]
    cases hfind : sec.find? (fun kv => kv.1 == "icon".toList) with
    | none =>
      rw [List.find?_eq_none] at hfind
      rw [List.any_eq_true] at hhit
      obtain ⟨kv0, hkv0, hp⟩ := hhit
      exact absurd hp (hfind kv0 hkv0)
    | some kv1 =>
      have hk1 := List.find?_some hfind
      simp only [Option.map]
      rw [if_pos hk1]
  · rw [if_neg hhit]
    rw [List.find?_append]
    have hnone : sec.find? (fun kv => kv.1 == "icon".toList) = none := by
      rw [List.find?_eq_none]
      intro kv hkv
      rw [Bool.not_eq_true, List.any_eq_false] at hhit
      exact hhit kv hkv
    rw [hnone]
    simp

theorem setOption_mem_frame (sec : CfgSection) (v k2 v2 : List Char)
    (hk2 : k2 ≠ "icon".toList) :
    ((k2, v2) ∈ setOptionInSection sec ("icon".toList) v ↔ (k2, v2) ∈ sec) := by
  unfold setOptionInSection
  by_cases hhit : (sec.any fun kv => kv.1 == "icon".toList) = true
  · rw [if_pos hhit]
    constructor
    · intro hm
      obtain ⟨y, hy, hye⟩ := List.mem_map.mp hm
      by_cases hyk : (y.1 == "icon".toList) = true
      · rw [if_pos hyk] at hye
        have h1 : y.1 = k2 := congrArg Prod.fst hye
        have h2 : y.1 = "icon".toList := by simpa using hyk
        exact absurd (h1.symm.trans h2) hk2
      · rw [if_neg hyk] at hye
        exact hye ▸ hy
    · intro hm
      apply List.mem_map.mpr
      refine ⟨(k2, v2), hm, ?_⟩
      rw [if_neg (by simpa using hk2)]
  · rw [if_neg hhit]
    constructor
    · intro hm
      rcases List.mem_append.mp hm with hm | hm
      · exact hm
      · rcases List.mem_singleton.mp hm with he
        exact absurd (by simpa using congrArg Prod.fst he) hk2
    · intro hm
      exact List.mem_append.mpr (Or.inl hm)

/-! ## C2 -/

/-- C2 counterexample: `_update_desktop_file_icon` rewrites the file by
re-serializing the `configparser` state, which lowercases key names and
normalizes delimiters to `key = value`; the input line `Name=Foo` (a key
other than the icon) does not occur verbatim in the output, refuting the
claim that every other key is preserved verbatim by the write. -/
theorem c2_counterexample :
    updateDesktopFileLines c2File ("new".toList) = some
      ["[Desktop Entry]".toList, "type = Application".toList,
       "name = Foo".toList, "icon = new".toList, []] ∧
    ("Name=Foo".toList) ∈ c2File ∧
    ("Name=Foo".toList) ∉
      ["[Desktop Entry]".toList, "type = Application".toList,
       "name = Foo".toList, "icon = new".toList, ([] : List Char)] ∧
    ("Type=Application".toList) ∉
      ["[Desktop Entry]".toList, "type = Application".toList,
       "name = Foo".toList, "icon = new".toList, ([] : List Char)] := by decide

/-- C2 amended: the rewrite changes only the icon key at the level of
parsed key/value data, not verbatim text: for a parsable file with a
`Desktop Entry` section (and values free of `%`, which would engage
interpolation), the write succeeds and the written file parses back to
exactly the original sections with only the `icon` option of the
`Desktop Entry` section set to the chosen name — every other section is
unchanged, and every option other than `icon` keeps its (lowercased,
whitespace-normalized) key and its value. -/
theorem c2_rewrite_parsed_frame (lines : List (List Char)) (newIcon : List Char)
    (cfg : Cfg) (entry : CfgSection)
    (h1 : parseCfg lines = some cfg)
    (h2 : lookupSection cfg ("Desktop Entry".toList) = some entry)
    (h3 : hasPercent (getOptionD entry "Icon".toList []) = false)
    (h4 : hasPercent newIcon = false)
    (h5 : trimL newIcon = newIcon) :
    updateDesktopFileLines lines newIcon = some (writeCfg (setIcon cfg newIcon)) ∧
    parseCfg (writeCfg (setIcon cfg newIcon)) = some (setIcon cfg newIcon) ∧
    lookupSection (setIcon cfg newIcon) ("Desktop Entry".toList) =
      some (setOptionInSection entry ("icon".toList) newIcon) ∧
    (∀ name, name ≠ "Desktop Entry".toList →
      lookupSection (setIcon cfg newIcon) name = lookupSection cfg name) ∧
    getOption (setOptionInSection entry ("icon".toList) newIcon) ("Icon".toList) =
      some newIcon ∧
    (∀ k2 v2, k2 ≠ "icon".toList →
      ((k2, v2) ∈ setOptionInSection entry ("icon".toList) newIcon ↔
        (k2, v2) ∈ entry)) := by
  have hwf := parseCfg_wf lines cfg h1
  have hwf2 := setIcon_wf cfg newIcon hwf h5
  refine ⟨?_, parse_write_roundtrip _ hwf2, ?_, ?_,
    getOption_setOption_icon entry newIcon,
    fun k2 v2 hk2 => setOption_mem_frame entry newIcon k2 v2 hk2⟩
  · unfold updateDesktopFileLines
    simp only [h1, h2]
    rw [if_neg ?hpc]
    case hpc =>
      rintro (hc | hc)
      · exact Bool.false_ne_true (h3.symm.trans hc)
      · exact Bool.false_ne_true (h4.symm.trans hc)
  · rw [lookupSection_setIcon, h2]
    simp
  · intro name hn
    rw [lookupSection_setIcon]
    cases hls : lookupSection cfg name with
    | none => rfl
    | some sec =>
      simp only [Option.map]
      rw [if_neg (by simpa using hn)]

/-- Witness instantiating `c2_rewrite_parsed_frame` on the concrete file
`c2File`. -/
theorem c2_rewrite_parsed_frame_witness :
    updateDesktopFileLines c2File ("new".toList) =
      some (writeCfg (setIcon c2Cfg ("new".toList))) ∧
    parseCfg (writeCfg (setIcon c2Cfg ("new".toList))) =
      some (setIcon c2Cfg ("new".toList)) ∧
    lookupSection (setIcon c2Cfg ("new".toList)) ("Desktop Entry".toList) =
      some (setOptionInSection c2Entry ("icon".toList) ("new".toList)) ∧
    (∀ name, name ≠ "Desktop Entry".toList →
      lookupSection (setIcon c2Cfg ("new".toList)) name = lookupSection c2Cfg name) ∧
    getOption (setOptionInSection c2Entry ("icon".toList) ("new".toList))
      ("Icon".toList) = some ("new".toList) ∧
    (∀ k2 v2, k2 ≠ "icon".toList →
      ((k2, v2) ∈ setOptionInSection c2Entry ("icon".toList) ("new".toList) ↔
        (k2, v2) ∈ c2Entry)) :=
  c2_rewrite_parsed_frame c2File ("new".toList) c2Cfg c2Entry (by decide) (by decide)
    (by decide) (by decide) (by decide)

/-! ## Lemmas about the file-system model -/

theorem str_append_backup_ne (t : String) : t ++ ".backup" ≠ t := by
  intro h
  have := congrArg String.length h
  rw [String.length_append] at this
  have h7 : String.length ".backup" = 7 := rfl
  omega

theorem lookupFS_set_self (st : FSV) (q : String) (c : List (List Char)) :
    lookupFS (setFS st q c) q = some c := by
  unfold lookupFS setFS
  by_cases hany : (st.any fun e => e.1 == q) = true
  · rw [if_pos hany, List.find?_map]
    have hpred : ((fun e : String × List (List Char) => e.1 == q) ∘
        (fun e => if e.1 == q then (q, c) else e)) =
        (fun e : String × List (List Char) => e.1 == q) := by
      funext e
      show ((if e.1 == q then (q, c) else e).1 == q) = (e.1 == q)
      by_cases he : (e.1 == q) = true
      · rw [if_pos he, he]
        simp
      · rw [if_neg he]
    rw [hpred]
    rw [List.any_eq_true] at hany
    obtain ⟨e0, he0, hp0⟩ := hany
    cases hf : st.find? (fun e => e.1 == q) with
    | none =>
      rw [List.find?_eq_none] at hf
      exact absurd hp0 (hf e0 he0)
    | some e1 =>
      have := List.find?_some hf
      simp only [Option.map]
      rw [if_pos this]
  · rw [if_neg hany, List.find?_append]
    have hnone : st.find? (fun e => e.1 == q) = none := by
      rw [List.find?_eq_none]
      intro e he
      rw [Bool.not_eq_true, List.any_eq_false] at hany
      exact hany e he
    rw [hnone]
    simp

theorem lookupFS_set_ne (st : FSV) (p q : String) (c : List (List Char))
    (h : p ≠ q) : lookupFS (setFS st q c) p = lookupFS st p := by
  unfold lookupFS setFS
  by_cases hany : (st.any fun e => e.1 == q) = true
  · rw [if_pos hany, List.find?_map]
    have hpred : ((fun e : String × List (List Char) => e.1 == p) ∘
        (fun e => if e.1 == q then (q, c) else e)) =
        (fun e : String × List (List Char) => e.1 == p) := by
      funext e
      show ((if e.1 == q then (q, c) else e).1 == p) = (e.1 == p)
      by_cases he : (e.1 == q) = true
      · rw [if_pos he]
        have heq : e.1 = q := by simpa using he
        rw [heq]
      · rw [if_neg he]
    rw [hpred]
    cases hf : st.find? (fun e => e.1 == p) with
    | none => rfl
    | some e1 =>
      have he1 := List.find?_some hf
      have he1p : e1.1 = p := by simpa using he1
      simp only [Option.map]
      rw [if_neg (show ¬(e1.1 == q) = true from by rw [he1p]; simpa using h)]
  · rw [if_neg hany, List.find?_append]
    have h2 : List.find? (fun e => e.1 == p) [(q, c)] = none := by
      rw [List.find?_cons]
      have hqp : ((q, c).1 == p) = false := by simpa using Ne.symm h
      rw [hqp]
      rfl
    rw [h2]
    simp

theorem copy2_some (fW : String → Bool) (st : FSV) (src dst : String) (st1 : FSV)
    (h : copy2 fW st src dst = some st1) :
    ∃ c, lookupFS st src = some c ∧ fW dst = false ∧ st1 = setFS st dst c := by
  unfold copy2 at h
  cases hy : lookupFS st src with
  | none =>
    rw [hy, Option.elim_none] at h
    exact Option.noConfusion h
  | some c =>
    rw [hy, Option.elim_some] at h
    by_cases hf : fW dst = true
    · rw [if_pos hf] at h
      exact Option.noConfusion h
    · rw [if_neg hf] at h
      injection h with h1
      exact ⟨c, rfl, by simpa using hf, h1.symm⟩

theorem copy2_none_char (fW : String → Bool) (st : FSV) (src dst : String)
    (h : copy2 fW st src dst = none) :
    lookupFS st src = none ∨ fW dst = true := by
  unfold copy2 at h
  cases hy : lookupFS st src with
  | none => exact Or.inl rfl
  | some c =>
    rw [hy, Option.elim_some] at h
    by_cases hf : fW dst = true
    · exact Or.inr hf
    · rw [if_neg hf] at h
      exact Option.noConfusion h

theorem copy2_of_src_none (fW : String → Bool) (st : FSV) (src dst : String)
    (h : lookupFS st src = none) : copy2 fW st src dst = none := by
  unfold copy2
  rw [h, Option.elim_none]

theorem updWriteStage_lookup_ne (fW : String → Bool) (st1 : FSV) (target p : String)
    (newIcon : List Char) (hp : p ≠ target) :
    lookupFS (updWriteStage fW st1 target newIcon).1 p = lookupFS st1 p := by
  unfold updWriteStage
  cases hu : updateDesktopFileLines ((lookupFS st1 target).getD []) newIcon with
  | none => rw [Option.elim_none]
  | some out =>
    rw [Option.elim_some]
    by_cases hf : fW target = true
    · rw [if_pos hf]
    · rw [if_neg hf]
      exact lookupFS_set_ne st1 p target out hp

theorem updBW_bp (failW : String → Bool) (st : FSV) (target : String)
    (newIcon : List Char) :
    lookupFS (updBackupAndWrite failW st target newIcon).1 (target ++ ".backup") =
      if (lookupFS st (target ++ ".backup")).isSome then
        lookupFS st (target ++ ".backup")
      else if (lookupFS st target).isSome ∧ failW (target ++ ".backup") = false then
        lookupFS st target
      else none := by
  have hne : target ++ ".backup" ≠ target := str_append_backup_ne target
  unfold updBackupAndWrite
  by_cases hbp : (lookupFS st (target ++ ".backup")).isSome = true
  · rw [if_pos hbp, if_pos hbp, Option.elim_some]
    exact updWriteStage_lookup_ne failW st target _ newIcon hne
  · rw [if_neg hbp, if_neg hbp]
    have hlhs : lookupFS st (target ++ ".backup") = none := by
      cases hx : lookupFS st (target ++ ".backup") with
      | none => rfl
      | some c => rw [hx] at hbp; simp at hbp
    cases hc : copy2 failW st target (target ++ ".backup") with
    | none =>
      rw [Option.elim_none]
      show lookupFS st (target ++ ".backup") = _
      rw [hlhs]
      rcases copy2_none_char _ _ _ _ hc with hn | hn
      · rw [if_neg (by rw [hn]; simp)]
      · rw [if_neg (by simp [hn])]
    | some st1 =>
      rw [Option.elim_some]
      obtain ⟨c, hsrc, hfb, rfl⟩ := copy2_some _ _ _ _ _ hc
      rw [updWriteStage_lookup_ne failW _ target _ newIcon hne,
        lookupFS_set_self, if_pos ⟨by rw [hsrc]; rfl, hfb⟩, hsrc]

theorem updBW_fail_state (failW : String → Bool) (st : FSV) (target : String)
    (newIcon : List Char)
    (hbp : ¬(lookupFS st (target ++ ".backup")).isSome = true)
    (hcopy : copy2 failW st target (target ++ ".backup") = none) :
    (updBackupAndWrite failW st target newIcon).1 = st := by
  unfold updBackupAndWrite
  rw [if_neg hbp, hcopy, Option.elim_none]

theorem upd_unchanged_w (home : String) (w fW : String → Bool) (st : FSV)
    (path : String) (newIcon : List Char)
    (hw : w path = true)
    (hbp : ¬(lookupFS st (path ++ ".backup")).isSome = true)
    (hcopy : copy2 fW st path (path ++ ".backup") = none) :
    (updateDesktopFileIcon home w fW st path newIcon).1 = st := by
  unfold updateDesktopFileIcon
  rw [if_pos hw]
  exact updBW_fail_state fW st path newIcon hbp hcopy

theorem upd_unchanged_nw (home : String) (w fW : String → Bool) (st : FSV)
    (path : String) (newIcon : List Char)
    (hw : ¬w path = true)
    (hcopy : copy2 fW st path (overridePathOf home path) = none) :
    (updateDesktopFileIcon home w fW st path newIcon).1 = st := by
  unfold updateDesktopFileIcon
  rw [if_neg hw, hcopy, Option.elim_none]

theorem upd_bp_char (home : String) (w fW : String → Bool) (st : FSV)
    (path : String) (newIcon : List Char) :
    lookupFS (updateDesktopFileIcon home w fW st path newIcon).1
        (backupPathOf home w path) =
      if (lookupFS st (backupPathOf home w path)).isSome then
        lookupFS st (backupPathOf home w path)
      else if w path then
        (if (lookupFS st path).isSome ∧ fW (backupPathOf home w path) = false then
          lookupFS st path
        else none)
      else
        (if (lookupFS st path).isSome ∧ fW (overridePathOf home path) = false ∧
            fW (backupPathOf home w path) = false then
          lookupFS st path
        else none) := by
  by_cases hw : w path = true
  · have hbpe : backupPathOf home w path = path ++ ".backup" := by
      unfold backupPathOf targetPathOf
      rw [if_pos hw]
    unfold updateDesktopFileIcon
    rw [if_pos hw, hbpe, updBW_bp, if_pos hw]
  · have hbpe : backupPathOf home w path = overridePathOf home path ++ ".backup" := by
      unfold backupPathOf targetPathOf
      rw [if_neg hw]
    unfold updateDesktopFileIcon
    rw [if_neg hw, hbpe, if_neg hw]
    cases hc : copy2 fW st path (overridePathOf home path) with
    | none =>
      rw [Option.elim_none]
      by_cases hbp : (lookupFS st (overridePathOf home path ++ ".backup")).isSome = true
      · rw [if_pos hbp]
      · have hlhs : lookupFS st (overridePathOf home path ++ ".backup") = none := by
          cases hx : lookupFS st (overridePathOf home path ++ ".backup") with
          | none => rfl
          | some c => rw [hx] at hbp; simp at hbp
        rw [if_neg hbp, hlhs]
        rcases copy2_none_char _ _ _ _ hc with hn | hn
        · rw [if_neg (by rw [hn]; simp)]
        · rw [if_neg (by simp [hn])]
    | some st1 =>
      rw [Option.elim_some]
      obtain ⟨c, hsrc, hfov, rfl⟩ := copy2_some _ _ _ _ _ hc
      rw [updBW_bp]
      have hovne : overridePathOf home path ++ ".backup" ≠ overridePathOf home path :=
        str_append_backup_ne _
      rw [lookupFS_set_ne st _ _ c hovne, lookupFS_set_self]
      by_cases hbp : (lookupFS st (overridePathOf home path ++ ".backup")).isSome = true
      · rw [if_pos hbp, if_pos hbp]
      · rw [if_neg hbp, if_neg hbp]
        by_cases hfbp : fW (overridePathOf home path ++ ".backup") = false
        · rw [if_pos ⟨rfl, hfbp⟩, if_pos ⟨by rw [hsrc]; rfl, hfov, hfbp⟩, hsrc]
        · rw [if_neg (by simp [hfbp]), if_neg (by simp [hfbp])]

/-! ## C8 -/

/-- C8: the backup step of the fix is idempotent.  First conjunct: an
existing backup file is never overwritten by a run of
`_update_desktop_file_icon` (the copy is guarded by
`os.path.exists(backup_path)`).  Second conjunct: running the fix twice
on the same entry leaves the backup exactly as after the first run, so at
most one backup is ever produced and the first run's backup survives the
second run, for every file-system state, writability predicate and
failure injection. -/
theorem c8_backup_idempotent (home : String) (w fW : String → Bool) (st : FSV)
    (path : String) (newIcon : List Char) :
    (∀ c, lookupFS st (backupPathOf home w path) = some c →
      lookupFS (updateDesktopFileIcon home w fW st path newIcon).1
        (backupPathOf home w path) = some c) ∧
    lookupFS (updateDesktopFileIcon home w fW
        (updateDesktopFileIcon home w fW st path newIcon).1 path newIcon).1
      (backupPathOf home w path) =
    lookupFS (updateDesktopFileIcon home w fW st path newIcon).1
      (backupPathOf home w path) := by
  constructor
  · intro c hc
    rw [upd_bp_char, hc]
    rw [if_pos (by rfl)]
  · set st1 := (updateDesktopFileIcon home w fW st path newIcon).1 with hst1
    rw [upd_bp_char home w fW st1 path newIcon]
    by_cases h1 : (lookupFS st1 (backupPathOf home w path)).isSome = true
    · rw [if_pos h1]
    · rw [if_neg h1]
      have hnone : lookupFS st1 (backupPathOf home w path) = none := by
        cases hx : lookupFS st1 (backupPathOf home w path) with
        | none => rfl
        | some d => rw [hx] at h1; simp at h1
      rw [hnone]
      have hchar := upd_bp_char home w fW st path newIcon
      rw [← hst1, hnone] at hchar
      by_cases hbp0 : (lookupFS st (backupPathOf home w path)).isSome = true
      · rw [if_pos hbp0] at hchar
        exfalso
        rw [← hchar] at hbp0
        simp at hbp0
      · rw [if_neg hbp0] at hchar
        by_cases hw : w path = true
        · rw [if_pos hw] at hchar ⊢
          by_cases hfbp : fW (backupPathOf home w path) = false
          · have hstp : lookupFS st path = none := by
              cases hx : lookupFS st path with
              | none => rfl
              | some d =>
                rw [if_pos ⟨by rw [hx]; rfl, hfbp⟩, hx] at hchar
                exact Option.noConfusion hchar.symm
            have hbpe : backupPathOf home w path = path ++ ".backup" := by
              unfold backupPathOf targetPathOf
              rw [if_pos hw]
            have hsame : st1 = st := by
              rw [hst1]
              exact upd_unchanged_w home w fW st path newIcon hw
                (by rw [← hbpe]; exact hbp0) (copy2_of_src_none _ _ _ _ hstp)
            rw [hsame, hstp]
            rw [if_neg (by simp)]
          · rw [if_neg (by intro hcond; exact hfbp hcond.2)]
        · rw [if_neg hw] at hchar ⊢
          by_cases hfov : fW (overridePathOf home path) = false
          · by_cases hfbp : fW (backupPathOf home w path) = false
            · have hstp : lookupFS st path = none := by
                cases hx : lookupFS st path with
                | none => rfl
                | some d =>
                  rw [if_pos ⟨by rw [hx]; rfl, hfov, hfbp⟩, hx] at hchar
                  exact Option.noConfusion hchar.symm
              have hsame : st1 = st := by
                rw [hst1]
                exact upd_unchanged_nw home w fW st path newIcon hw
                  (copy2_of_src_none _ _ _ _ hstp)
              rw [hsame, hstp]
              rw [if_neg (by simp)]
            · rw [if_neg (by intro hcond; exact hfbp hcond.2.2)]
          · rw [if_neg (by intro hcond; exact hfov hcond.2.1)]

/-- Witness instantiating `c8_backup_idempotent` at a concrete state with
an existing backup. -/
theorem c8_backup_idempotent_witness :
    lookupFS (updateDesktopFileIcon "/h" (fun _ => true) (fun _ => false)
        [("/a.desktop", c2File), ("/a.desktop.backup", c2File)]
        "/a.desktop" ("new".toList)).1
      (backupPathOf "/h" (fun _ => true) "/a.desktop") = some c2File :=
  (c8_backup_idempotent "/h" (fun _ => true) (fun _ => false)
    [("/a.desktop", c2File), ("/a.desktop.backup", c2File)]
    "/a.desktop" ("new".toList)).1 c2File (by decide)

/-! ## C9 -/

theorem applyFixes_counts_aux (home : String) (w fW : String → Bool) :
    ∀ (entries : List (String × List String)) (st : FSV) (a b : Nat),
      ((entries.foldl (fun acc e =>
          match e.2 with
          | [] => acc
          | alt :: _ =>
            let r := updateDesktopFileIcon home w fW acc.1 e.1 (alt.toList)
            if r.2 then (r.1, acc.2.1 + 1, acc.2.2)
            else (r.1, acc.2.1, acc.2.2 + 1)) (st, a, b)).2.1 +
        (entries.foldl (fun acc e =>
          match e.2 with
          | [] => acc
          | alt :: _ =>
            let r := updateDesktopFileIcon home w fW acc.1 e.1 (alt.toList)
            if r.2 then (r.1, acc.2.1 + 1, acc.2.2)
            else (r.1, acc.2.1, acc.2.2 + 1)) (st, a, b)).2.2) =
      a + b + (entries.filter (fun e => !e.2.isEmpty)).length := by
  intro entries
  induction entries with
  | nil =>
    intro st a b
    simp
  | cons e rest ih =>
    intro st a b
    rw [List.foldl_cons, List.filter_cons]
    cases he : e.2 with
    | nil =>
      simp only [he, List.isEmpty_nil, Bool.not_true, Bool.false_eq_true, if_false]
      exact ih st a b
    | cons alt alts =>
      simp only [he, List.isEmpty_cons, Bool.not_false, if_true]
      by_cases hr : (updateDesktopFileIcon home w fW st e.1 (alt.toList)).2 = true
      · rw [if_pos hr]
        rw [ih _ (a + 1) b]
        simp only [List.length_cons]
        omega
      · rw [if_neg hr]
        rw [ih _ a (b + 1)]
        simp only [List.length_cons]
        omega

/-- C9: the fix batch never aborts and records exactly one outcome per
actionable entry: for every file-system state, writability predicate and
injected write/copy failures, the numbers of fixed and failed entries
reported by `apply_fixes` sum to the number of entries that have at least
one suggested alternative — every failure is absorbed within its entry
(the source's per-entry `try/except` returning `False`) and the remaining
entries are still processed. -/
theorem c9_apply_fixes_isolates_failures (home : String) (w fW : String → Bool)
    (st : FSV) (entries : List (String × List String)) :
    (applyFixes home w fW st entries).2.1 + (applyFixes home w fW st entries).2.2 =
      (entries.filter (fun e => !e.2.isEmpty)).length := by
  have h := applyFixes_counts_aux home w fW entries st 0 0
  simpa [applyFixes] using h

theorem probeEffs_readonly (fsE : String → Bool) :
    ∀ l : List String, ∀ x ∈ probeEffs fsE l, x.isReadOnly = true := by
  intro l
  induction l with
  | nil => intro x hx; simp [probeEffs] at hx
  | cons p ps ih =>
    intro x hx
    unfold probeEffs at hx
    by_cases hp : fsE p = true
    · rw [if_pos hp] at hx
      rcases List.mem_singleton.mp hx with rfl
      rfl
    · rw [if_neg hp] at hx
      rcases List.mem_cons.mp hx with rfl | hx2
      · rfl
      · exact ih x hx2

theorem findPapirusIconEffs_readonly (paths : List String) (fsE : String → Bool)
    (iconName : String) :
    ∀ x ∈ findPapirusIconEffs paths fsE iconName, x.isReadOnly = true := by
  intro x hx
  unfold findPapirusIconEffs at hx
  by_cases h : iconName = ""
  · rw [if_pos h] at hx; simp at hx
  · rw [if_neg h] at hx
    exact probeEffs_readonly fsE _ x hx

theorem resolveIconPathEffs_readonly (g : Bool) (fsE : String → Bool)
    (iconName : String) :
    ∀ x ∈ resolveIconPathEffs g fsE iconName, x.isReadOnly = true := by
  intro x hx
  unfold resolveIconPathEffs at hx
  by_cases h1 : ¬g = true ∨ iconName = ""
  · rw [if_pos h1] at hx; simp at hx
  · rw [if_neg h1] at hx
    by_cases h2 : startsWithL iconName "/" = true
    · rw [if_pos h2] at hx
      by_cases h3 : fsE iconName = true
      · rw [if_pos h3] at hx
        rcases List.mem_singleton.mp hx with rfl
        rfl
      · rw [if_neg h3] at hx
        rcases List.mem_cons.mp hx with rfl | hx2
        · rfl
        · rcases List.mem_singleton.mp hx2 with rfl
          rfl
    · rw [if_neg h2] at hx
      rcases List.mem_singleton.mp hx with rfl
      rfl

theorem suggestEffs_readonly (paths : List String) (fsE : String → Bool)
    (app : AppInfo) :
    ∀ x ∈ suggestEffs paths fsE app, x.isReadOnly = true := by
  intro x hx
  unfold suggestEffs at hx
  by_cases h0 : (findPapirusIcon paths fsE app.icon).isSome = true
  · rw [if_pos h0] at hx
    exact findPapirusIconEffs_readonly paths fsE app.icon x hx
  · rw [if_neg h0] at hx
    simp only at hx
    by_cases h1 :
        ((variationsOf (splitextBase app.icon)).filter
          (fun v => (findPapirusIcon paths fsE v).isSome)).isEmpty = true
    · rw [if_pos h1] at hx
      rcases List.mem_append.mp hx with hx2 | hx2
      · rcases List.mem_append.mp hx2 with hx3 | hx3
        · exact findPapirusIconEffs_readonly paths fsE app.icon x hx3
        · rcases List.mem_flatMap.mp hx3 with ⟨v, _, hv2⟩
          exact findPapirusIconEffs_readonly paths fsE v x hv2
      · rcases List.mem_flatMap.mp hx2 with ⟨t, _, ht2⟩
        cases hf : genericIconMapping.find? (fun kv => kv.1 == t) with
        | none => rw [hf] at ht2; simp at ht2
        | some kv =>
          rw [hf] at ht2
          rw [Option.elim_some] at ht2
          rcases List.mem_flatMap.mp ht2 with ⟨g, _, hg2⟩
          exact findPapirusIconEffs_readonly paths fsE g x hg2
    · rw [if_neg h1] at hx
      rcases List.mem_append.mp hx with hx2 | hx2
      · exact findPapirusIconEffs_readonly paths fsE app.icon x hx2
      · rcases List.mem_flatMap.mp hx2 with ⟨v, _, hv2⟩
        exact findPapirusIconEffs_readonly paths fsE v x hv2

theorem scanFileEffs_readonly (home : String) (paths : List String) (g : Bool)
    (fsE : String → Bool) (lk : String → Option String)
    (readParse : String → Option Cfg) (f : String) :
    ∀ x ∈ scanFileEffs home paths g fsE lk readParse f, x.isReadOnly = true := by
  intro x hx
  unfold scanFileEffs at hx
  rcases List.mem_cons.mp hx with rfl | hx2
  · rfl
  · cases hp : (readParse f).bind (fun cfg => parseDesktopFile home cfg f) with
    | none => rw [hp] at hx2; simp at hx2
    | some app =>
      rw [hp] at hx2
      rw [Option.elim_some] at hx2
      rcases List.mem_append.mp hx2 with hx3 | hx3
      · exact resolveIconPathEffs_readonly g fsE app.icon x hx3
      · by_cases hc :
            isPapirusIcon paths (resolveIconPath g fsE lk app.icon) = true
        · rw [if_pos hc] at hx3; simp at hx3
        · rw [if_neg hc] at hx3
          exact suggestEffs_readonly paths fsE app x hx3

theorem scanDirEffs_readonly (home : String) (paths : List String) (g : Bool)
    (fsE : String → Bool) (lk : String → Option String)
    (readParse : String → Option Cfg) (dirExists : String → Bool)
    (globFn : String → List String) (d : String) :
    ∀ x ∈ scanDirEffs home paths g fsE lk readParse dirExists globFn d,
      x.isReadOnly = true := by
  intro x hx
  unfold scanDirEffs at hx
  rcases List.mem_cons.mp hx with rfl | hx2
  · rfl
  · by_cases hd : dirExists d = true
    · rw [if_pos hd] at hx2
      rcases List.mem_cons.mp hx2 with rfl | hx3
      · rfl
      · rcases List.mem_flatMap.mp hx3 with ⟨f, _, hf2⟩
        exact scanFileEffs_readonly home paths g fsE lk readParse f x hf2
    · rw [if_neg hd] at hx2; simp at hx2

/-- C10: the scan pass (descriptor enumeration, parsing, icon resolution,
classification, suggestion search and report computation) performs only
read-only file-system operations — existence checks, globbing, reads and
theme lookups — in every environment; by contrast the fix step does
modify the file system (on a concrete writable state it creates the
`.backup` copy and rewrites the descriptor). -/
theorem c10_scan_is_read_only (home : String) (papirusPaths : List String)
    (desktopPathsCfg : List (String × List String)) (dirExists : String → Bool)
    (globFn : String → List String) (readParse : String → Option Cfg)
    (gtkAvailable : Bool) (fsE : String → Bool)
    (gtkLookup : String → Option String) :
    ((scanAllApplicationsEffs home papirusPaths desktopPathsCfg dirExists globFn
        readParse gtkAvailable fsE gtkLookup).all FsEff.isReadOnly = true) ∧
    (updateDesktopFileIcon "/h" (fun _ => true) (fun _ => false)
        [("/a/b.desktop", c2File)] "/a/b.desktop" "x".toList).1 ≠
      [("/a/b.desktop", c2File)] := by
  constructor
  · rw [List.all_eq_true]
    intro x hx
    unfold scanAllApplicationsEffs at hx
    by_cases he : papirusPaths.isEmpty = true
    · rw [if_pos he] at hx; simp at hx
    · rw [if_neg he] at hx
      rcases List.mem_flatMap.mp hx with ⟨pt, _, hpt2⟩
      rcases List.mem_flatMap.mp hpt2 with ⟨d, _, hd2⟩
      exact scanDirEffs_readonly home papirusPaths gtkAvailable fsE gtkLookup
        readParse dirExists globFn d x hd2
  · decide
